import Mathlib

/-!
Shallow embedding of the `cypress-1password` secret-resolution engine
(`src/opUri.ts`, `src/constants.ts`, `src/OpResolver.ts`) in Lean 4, together
with theorems settling the frozen claims about its specification.

JavaScript strings are modelled as Lean `String`s; all string manipulation is
re-implemented structurally over `List Char` so that every definition is
executable and kernel-reducible.  JavaScript `Map`s are modelled as
association lists where `set` conses in front (last `set` wins on `get`,
which is the only observable the source uses).  The 1Password backend
(`item.get`, `validateCli` from `@1password/op-js`) is an external
collaborator and is modelled as an explicit oracle parameter.
-/

namespace CyOp

/-! ## JavaScript string primitives -/

/-- The JavaScript `\s` / `trim` whitespace set (ASCII part plus the Unicode
space characters recognised by ECMAScript). -/
def isJsWs (c : Char) : Bool :=
  c = ' ' || c = '\t' || c = '\n' || c = '\r' ||
  c.toNat = 11 || c.toNat = 12 || c.toNat = 0xa0 || c.toNat = 0x1680 ||
  (0x2000 ≤ c.toNat && c.toNat ≤ 0x200a) || c.toNat = 0x2028 ||
  c.toNat = 0x2029 || c.toNat = 0x202f || c.toNat = 0x205f ||
  c.toNat = 0x3000 || c.toNat = 0xfeff

/-- ASCII lower-casing of one character (the fragment of
`String.prototype.toLowerCase` exercised by the source). -/
def lowerChar (c : Char) : Char :=
  if 'A' ≤ c ∧ c ≤ 'Z' then Char.ofNat (c.toNat + 32) else c

/-- `String.prototype.toLowerCase`. -/
def jsToLower (s : String) : String := String.mk (s.data.map lowerChar)

/-- `String.prototype.trim`. -/
def jsTrim (s : String) : String :=
  String.mk (((s.data.dropWhile isJsWs).reverse.dropWhile isJsWs).reverse)

/-- Split a character list on every occurrence of `sep`
(`String.prototype.split` with a one-character separator). -/
def splitCharAux (sep : Char) : List Char → List Char → List (List Char)
  | [], acc => [acc.reverse]
  | c :: rest, acc =>
    if c = sep then acc.reverse :: splitCharAux sep rest []
    else splitCharAux sep rest (c :: acc)

/-- `String.prototype.split` with a one-character separator string. -/
def jsSplitChar (sep : Char) (s : String) : List String :=
  (splitCharAux sep s.data []).map String.mk

/-- Boolean prefix test on character lists. -/
def prefChars : List Char → List Char → Bool
  | [], _ => true
  | _ :: _, [] => false
  | p :: ps, c :: cs => p = c && prefChars ps cs

/-- `String.prototype.startsWith`. -/
def strBegins (s pre : String) : Bool := prefChars pre.data s.data

/-- Does some suffix of the list satisfy `p`? -/
def anySuffix (p : List Char → Bool) : List Char → Bool
  | [] => p []
  | c :: rest => p (c :: rest) || anySuffix p rest

/-- `String.prototype.includes`. -/
def hasSub (s sub : String) : Bool := anySuffix (prefChars sub.data) s.data

/-- Truthiness of a JavaScript string (`"" `is falsy). -/
def jsTruthyS (s : String) : Bool := s ≠ ""

/-- Truthiness of a possibly-`undefined` JavaScript string. -/
def jsTruthyO : Option String → Bool
  | some s => s ≠ ""
  | none => false

/-! ## Percent decoding (`decodeURIComponent`, `URLSearchParams`) -/

/-- Hexadecimal digit value. -/
def hexVal (c : Char) : Option Nat :=
  if '0' ≤ c ∧ c ≤ '9' then some (c.toNat - '0'.toNat)
  else if 'a' ≤ c ∧ c ≤ 'f' then some (c.toNat - 'a'.toNat + 10)
  else if 'A' ≤ c ∧ c ≤ 'F' then some (c.toNat - 'A'.toNat + 10)
  else none

/-- UTF-8 encoding of a single character, as byte values. -/
def charUtf8Bytes (c : Char) : List Nat :=
  let n := c.toNat
  if n < 0x80 then [n]
  else if n < 0x800 then [0xc0 + n / 0x40, 0x80 + n % 0x40]
  else if n < 0x10000 then
    [0xe0 + n / 0x1000, 0x80 + (n / 0x40) % 0x40, 0x80 + n % 0x40]
  else
    [0xf0 + n / 0x40000, 0x80 + (n / 0x1000) % 0x40,
     0x80 + (n / 0x40) % 0x40, 0x80 + n % 0x40]

/-- Is `b` a UTF-8 continuation byte? -/
def isCont (b : Nat) : Bool := 0x80 ≤ b && b < 0xc0

/-- Strict UTF-8 decoding of a byte sequence; `none` on any malformed,
overlong, surrogate or out-of-range sequence (the failure mode that makes
`decodeURIComponent` throw). -/
def utf8Dec : List Nat → Option (List Char)
  | [] => some []
  | b :: bs =>
    if b < 0x80 then (utf8Dec bs).map (fun cs => Char.ofNat b :: cs)
    else if b < 0xc2 then none
    else if b < 0xe0 then
      match bs with
      | b1 :: bs2 =>
        if isCont b1 then
          (utf8Dec bs2).map (fun cs => Char.ofNat ((b - 0xc0) * 0x40 + (b1 - 0x80)) :: cs)
        else none
      | _ => none
    else if b < 0xf0 then
      match bs with
      | b1 :: b2 :: bs3 =>
        if isCont b1 && isCont b2 then
          let cp := (b - 0xe0) * 0x1000 + (b1 - 0x80) * 0x40 + (b2 - 0x80)
          if 0x800 ≤ cp ∧ ¬ (0xd800 ≤ cp ∧ cp ≤ 0xdfff) then
            (utf8Dec bs3).map (fun cs => Char.ofNat cp :: cs)
          else none
        else none
      | _ => none
    else if b < 0xf5 then
      match bs with
      | b1 :: b2 :: b3 :: bs4 =>
        if isCont b1 && isCont b2 && isCont b3 then
          let cp := (b - 0xf0) * 0x40000 + (b1 - 0x80) * 0x1000 +
            (b2 - 0x80) * 0x40 + (b3 - 0x80)
          if 0x10000 ≤ cp ∧ cp ≤ 0x10ffff then
            (utf8Dec bs4).map (fun cs => Char.ofNat cp :: cs)
          else none
        else none
      | _ => none
    else none

/-- Lenient UTF-8 decoding with explicit fuel (structural recursion on the
fuel; the wrapper passes the list length, which suffices since every step
consumes at least one byte). -/
def utf8DecLenientF : Nat → List Nat → List Char
  | 0, _ => []
  | _, [] => []
  | Nat.succ n, b :: bs =>
    if b < 0x80 then Char.ofNat b :: utf8DecLenientF n bs
    else if b < 0xc2 then Char.ofNat 0xfffd :: utf8DecLenientF n bs
    else if b < 0xe0 then
      match bs with
      | b1 :: bs2 =>
        if isCont b1 then
          Char.ofNat ((b - 0xc0) * 0x40 + (b1 - 0x80)) :: utf8DecLenientF n bs2
        else Char.ofNat 0xfffd :: utf8DecLenientF n bs
      | _ => [Char.ofNat 0xfffd]
    else if b < 0xf0 then
      match bs with
      | b1 :: b2 :: bs3 =>
        if isCont b1 && isCont b2 then
          let cp := (b - 0xe0) * 0x1000 + (b1 - 0x80) * 0x40 + (b2 - 0x80)
          if 0x800 ≤ cp ∧ ¬ (0xd800 ≤ cp ∧ cp ≤ 0xdfff) then
            Char.ofNat cp :: utf8DecLenientF n bs3
          else Char.ofNat 0xfffd :: utf8DecLenientF n bs
        else Char.ofNat 0xfffd :: utf8DecLenientF n bs
      | _ => [Char.ofNat 0xfffd]
    else if b < 0xf5 then
      match bs with
      | b1 :: b2 :: b3 :: bs4 =>
        if isCont b1 && isCont b2 && isCont b3 then
          let cp := (b - 0xf0) * 0x40000 + (b1 - 0x80) * 0x1000 +
            (b2 - 0x80) * 0x40 + (b3 - 0x80)
          if 0x10000 ≤ cp ∧ cp ≤ 0x10ffff then
            Char.ofNat cp :: utf8DecLenientF n bs4
          else Char.ofNat 0xfffd :: utf8DecLenientF n bs
        else Char.ofNat 0xfffd :: utf8DecLenientF n bs
      | _ => [Char.ofNat 0xfffd]
    else Char.ofNat 0xfffd :: utf8DecLenientF n bs

/-- Lenient UTF-8 decoding: malformed input yields U+FFFD and resumes at the
next byte (the WHATWG behaviour used by `URLSearchParams`). -/
def utf8DecLenient (bs : List Nat) : List Char := utf8DecLenientF bs.length bs

/-- Byte sequence denoted by a string under `decodeURIComponent`'s scan:
`%HH` becomes a byte, any other character contributes its UTF-8 bytes;
`none` on a `%` not followed by two hex digits. -/
def pctBytes : List Char → Option (List Nat)
  | [] => some []
  | '%' :: h1 :: h2 :: rest =>
    match hexVal h1, hexVal h2 with
    | some a, some b => (pctBytes rest).map (fun bs => (a * 16 + b) :: bs)
    | _, _ => none
  | '%' :: _ => none
  | c :: rest => (pctBytes rest).map (fun bs => charUtf8Bytes c ++ bs)

/-- JavaScript `decodeURIComponent`; `none` models a thrown `URIError`. -/
def decURI (s : String) : Option String :=
  (pctBytes s.data).bind (fun bs => (utf8Dec bs).map String.mk)

/-- Byte sequence of a string under `application/x-www-form-urlencoded`
decoding: `+` is space, a valid `%HH` is a byte, an invalid `%` stays
literal. -/
def formBytes : List Char → List Nat
  | [] => []
  | '%' :: h1 :: h2 :: rest =>
    match hexVal h1, hexVal h2 with
    | some a, some b => (a * 16 + b) :: formBytes rest
    | _, _ => charUtf8Bytes '%' ++ formBytes (h1 :: h2 :: rest)
  | '%' :: rest => charUtf8Bytes '%' ++ formBytes rest
  | '+' :: rest => 0x20 :: formBytes rest
  | c :: rest => charUtf8Bytes c ++ formBytes rest

/-- `application/x-www-form-urlencoded` decoding of one token. -/
def formDecode (s : String) : String := String.mk (utf8DecLenient (formBytes s.data))

/-- Split on the first occurrence of `sep`: the part before, and the part
after when `sep` occurs. -/
def splitFirstCharAux (sep : Char) : List Char → List Char → String × Option String
  | [], acc => (String.mk acc.reverse, none)
  | c :: rest, acc =>
    if c = sep then (String.mk acc.reverse, some (String.mk rest))
    else splitFirstCharAux sep rest (c :: acc)

/-- Split a string on the first occurrence of `sep`. -/
def splitFirstChar (sep : Char) (s : String) : String × Option String :=
  splitFirstCharAux sep s.data []

/-- `new URLSearchParams(query).get(key)`: first value recorded for `key`
after form-urlencoded parsing of the query string. -/
def urlSearchGet (query key : String) : Option String :=
  let pairs := (jsSplitChar '&' query).filter (fun p => p ≠ "")
  let kvs : List (String × String) := pairs.map (fun p =>
    let (n, v) := splitFirstChar '=' p
    (formDecode n, formDecode (v.getD "")))
  (kvs.find? (fun kv => kv.1 = key)).map (fun kv => kv.2)

/-! ## `opUri.ts` : `parseOpUri` and the constants it uses -/

/-- `OP_PROTOCOL_PREFIX` from `constants.ts`. -/
def opScheme : String := "op://"

/-- `OP_PROTOCOL_LENGTH` from `constants.ts`. -/
def opSchemeLength : Nat := 5

/-- `MIN_PATH_PARTS` from `constants.ts`. -/
def MIN_PATH_PARTS : Nat := 1

/-- `MAX_PATH_PARTS` from `constants.ts`. -/
def MAX_PATH_PARTS : Nat := 3

/-- `SECTION_FIELD_SEPARATOR` from `constants.ts`. -/
def sectionFieldSep : Char := '.'

/-- `ERROR_PREFIX` from `constants.ts`. -/
def errorTag : String := "[cypress-1password]"

/-- `DEFAULT_FAIL_ON_ERROR` from `constants.ts`. -/
def DEFAULT_FAIL_ON_ERROR : Bool := true

/-- `SPECIAL_URL_FIELDS` from `constants.ts`. -/
def SPECIAL_URL_FIELDS : List String := ["url", "website"]

/-- Parsed components of an `op://` URI (`OpUri` in `opUri.ts`). -/
structure OpUri where
  vault : Option String := none
  item : Option String := none
  field : Option String := none
  url : Option String := none
deriving Repr, DecidableEq

/-- The query-parameter handling of `parseOpUri`: extract `target_url`,
URL-decode it (a decoding failure is caught and ignored), and prefix
`https://` when the decoded value has no scheme marker.  Returns the value
of the local variable `url` at the end of `parseOpUri`. -/
def parseTargetUrl (queryString : Option String) : Option String :=
  match queryString with
  | none => none
  | some q =>
    if ¬ jsTruthyS q then none
    else
      match urlSearchGet q "target_url" with
      | none => none
      | some t =>
        if ¬ jsTruthyS t then none
        else
          match decURI t with
          | none => none
          | some d =>
            if jsTruthyS d ∧ ¬ hasSub d "://" then some ("https://" ++ d)
            else some d

/-- The object-spread step `...(x && { x: f x })`: keep the component only
when truthy. -/
def spreadOpt (o : Option String) (f : String → String) : Option String :=
  match o with
  | some s => if s ≠ "" then some (f s) else none
  | none => none

/-- The `pathOnly` step of `parseOpUri`: strip the scheme, split off a
query string on the first two `?` pieces, split the remaining path on `/`. -/
def pathPartsOf (s : String) : List String :=
  jsSplitChar '/'
    (((jsSplitChar '?' (String.mk (s.data.drop opSchemeLength))).take 2).headD "")

/-- The `queryString` step of `parseOpUri` (the second of at most two
`?`-split pieces; `none` models `undefined` in the destructuring). -/
def queryOf (s : String) : Option String :=
  ((jsSplitChar '?' (String.mk (s.data.drop opSchemeLength))).take 2)[1]?

/-- The `url` component a parse of `s` yields (the `...(url && { url })`
spread applied to the parsed `target_url` query parameter). -/
def urlComponent (s : String) : Option String :=
  let url := parseTargetUrl (queryOf s)
  if jsTruthyO url then url else none

/-- `parseOpUri` from `opUri.ts`. -/
def parseOpUri (opUri : String) (isSession : Bool) : Option OpUri :=
  if ¬ (jsTruthyS opUri ∧ strBegins opUri opScheme) then none
  else
    if ¬ jsTruthyS (String.mk (opUri.data.drop opSchemeLength)) then none
    else
      let pathParts := pathPartsOf opUri
      let isValid := MIN_PATH_PARTS ≤ pathParts.length ∧
        pathParts.length ≤ MAX_PATH_PARTS ∧
        pathParts.all (fun p => (jsTrim p).length > 0)
      if ¬ isValid then none
      else
        let remapped : Option String × Option String × Option String :=
          match pathParts, isSession with
          | [a], _ => (none, none, some a)
          | [a, b], false => (none, some a, some b)
          | [a, b], true => (some a, some b, none)
          | [a, b, c], _ => (some a, some b, some c)
          | _, _ => (none, none, none)
        some { vault := spreadOpt remapped.1 jsTrim,
               item := spreadOpt remapped.2.1 jsTrim,
               field := spreadOpt remapped.2.2 jsTrim,
               url := urlComponent opUri }

/-! ## `OpResolver.ts` : data model -/

/-- A JavaScript value stored in the Cypress `env` map: a string, an array
(whose elements are only ever inspected for being strings, so a non-string
element is modelled as `none`), or some other (non-string, non-array,
non-nullish) value. -/
inductive EnvVal
  | vstr (s : String)
  | varr (xs : List (Option String))
  | vother
deriving Repr, DecidableEq

/-- Truthiness of a possibly-absent `env` value (only the empty string is
falsy among the modelled values). -/
def jsTruthyE : Option EnvVal → Bool
  | none => false
  | some (.vstr s) => s ≠ ""
  | some (.varr _) => true
  | some .vother => true

/-- Property lookup on the `env` object (modelled as an association list in
key-insertion order). -/
def envGet (env : List (String × EnvVal)) (k : String) : Option EnvVal :=
  (env.find? (fun kv => kv.1 = k)).map (fun kv => kv.2)

/-- The process-level environment fallbacks read by `resolveSecretPath`
(`process.env` values are always strings when present). -/
structure ProcEnv where
  cyopVault : Option String := none
  cyopItem : Option String := none
  cyopSession : Option String := none
  c8ySession : Option String := none
deriving Repr, DecidableEq

/-- `CyOpResolvedSecretIdentifier` from `OpResolver.ts`. -/
structure CyOpResolvedSecretIdentifier where
  vaultNames : List String
  itemName : String
  fieldSpecifier : String
  originalPath : String
  target_url : Option String := none
deriving Repr, DecidableEq

/-- The vault reference carried by a fetched item. -/
structure OpVaultRef where
  id : String
  name : Option String := none
deriving Repr, DecidableEq

/-- A field's section, as used by the section.field lookup. -/
structure OpSection where
  id : Option String := none
  label : Option String := none
deriving Repr, DecidableEq

/-- A field of a 1Password item (`ValueField` of `@1password/op-js`). -/
structure OpField where
  id : Option String := none
  label : Option String := none
  value : Option String := none
  «section» : Option OpSection := none
deriving Repr, DecidableEq

/-- One entry of an item's `urls` list. -/
structure OpUrlEntry where
  primary : Option Bool := none
  href : Option String := none
deriving Repr, DecidableEq

/-- A fetched 1Password item (`Item` of `@1password/op-js`); `fields := none`
models an item value without a `fields` property. -/
structure OpJsItem where
  id : String
  title : Option String := none
  vault : OpVaultRef
  fields : Option (List OpField) := none
  urls : Option (List OpUrlEntry) := none
deriving Repr, DecidableEq

/-! ## `OpResolver.ts` : `parseVaultEnvironment` and `resolveSecretPath` -/

/-- `parseVaultEnvironment` from `OpResolver.ts`: a comma-separated string
or an array of strings, trimmed, empty entries dropped, order preserved
(a falsy value — absent or the empty string — yields `[]`). -/
def parseVaultEnvironment (vaultEnv : Option EnvVal) : List String :=
  match vaultEnv with
  | none => []
  | some (.vstr s) =>
    if s = "" then []
    else ((jsSplitChar ',' s).map jsTrim).filter (fun v => v.length > 0)
  | some (.varr xs) =>
    xs.filterMap (fun v =>
      match v with
      | some s => if (jsTrim s).length > 0 then some (jsTrim s) else none
      | none => none)
  | some .vother => []

/-- The session branch of `resolveSecretPath` (lines 134-145 of
`OpResolver.ts`), factored as a function of the ambient `vaultEnv` and
`itemEnv` and the parsed session reference.  Returns the adjusted
`(vaultEnv, itemEnv, sessionUrl)`. -/
def sessionAdjust (vaultEnv : Option EnvVal) (itemEnv : Option String)
    (sessionOp : Option OpUri) : Option EnvVal × Option String × Option String :=
  match sessionOp with
  | some so =>
    if jsTruthyO so.vault ∧ jsTruthyO so.item then
      (so.vault.map EnvVal.vstr, so.item, so.url)
    else
      let itemEnv' := if ¬ jsTruthyO itemEnv ∧ jsTruthyO so.item then so.item else itemEnv
      let vaultEnv' :=
        if ¬ jsTruthyE vaultEnv ∧ jsTruthyO so.vault then so.vault.map EnvVal.vstr
        else vaultEnv
      (vaultEnv', itemEnv', so.url)
  | none => (vaultEnv, itemEnv, none)

/-- The ambient-scope computation at the head of `resolveSecretPath`
(lines 122-145): read `CYOP_VAULT`/`CYOP_ITEM` (configuration first,
process fallback second) and the session value (`CYOP_SESSION` before
`C8Y_SESSION`, configuration before process), then apply the session
branch.  Returns the effective `(vaultEnv, itemEnv, sessionUrl)`.  A
non-string `CYOP_ITEM` value is outside the string-level embedding and is
treated as absent. -/
def ambientAdjusted (env : List (String × EnvVal)) (proc : ProcEnv) :
    Option EnvVal × Option String × Option String :=
  let vaultEnv0 : Option EnvVal :=
    envGet env "CYOP_VAULT" <|> proc.cyopVault.map EnvVal.vstr
  let itemEnv0 : Option String :=
    match envGet env "CYOP_ITEM" with
    | some (.vstr s) => some s
    | some _ => none
    | none => proc.cyopItem
  let sessionEnv : Option EnvVal :=
    envGet env "CYOP_SESSION" <|> envGet env "C8Y_SESSION" <|>
      proc.cyopSession.map EnvVal.vstr <|> proc.c8ySession.map EnvVal.vstr
  match sessionEnv with
  | some (.vstr s) => sessionAdjust vaultEnv0 itemEnv0 (parseOpUri s true)
  | _ => (vaultEnv0, itemEnv0, none)

/-- `resolveSecretPath` from `OpResolver.ts`.  The ambient `env` object and
the `process.env` fallbacks are explicit parameters. -/
def resolveSecretPath (env : List (String × EnvVal)) (proc : ProcEnv)
    (originalOpPath : String) : Option CyOpResolvedSecretIdentifier :=
  let adj := ambientAdjusted env proc
  let vaultEnv := adj.1
  let itemEnv := adj.2.1
  let sessionUrl := adj.2.2
  match parseOpUri originalOpPath false with
  | none => none
  | some opUri =>
    let vaultNames :=
      if jsTruthyO opUri.vault then [opUri.vault.getD ""]
      else parseVaultEnvironment vaultEnv
    if vaultNames.length = 0 then none
    else
      let itemName := opUri.item <|> itemEnv
      let fieldSpecifier := opUri.field
      let url := sessionUrl <|> opUri.url
      if ¬ jsTruthyO itemName ∨ ¬ jsTruthyO fieldSpecifier then none
      else
        match itemName, fieldSpecifier with
        | some i, some f =>
          some { vaultNames := vaultNames, itemName := i, fieldSpecifier := f,
                 originalPath := originalOpPath, target_url := url }
        | _, _ => none

/-! ## `OpResolver.ts` : `findFieldValue` -/

/-- A JavaScript `Map` specialised to `String → ValueField`, modelled as an
association list where `set` conses in front: `get` returns the most recent
`set`, which is the only observable behaviour the source relies on. -/
def jsMapSet (m : List (String × OpField)) (k : String) (v : OpField) :
    List (String × OpField) := (k, v) :: m

/-- `Map.prototype.get`. -/
def jsMapGet (m : List (String × OpField)) (k : String) : Option OpField :=
  (m.find? (fun kv => kv.1 = k)).map (fun kv => kv.2)

/-- The four pre-computed lookup maps of `findFieldValue`. -/
structure FieldMaps where
  byLabel : List (String × OpField) := []
  byId : List (String × OpField) := []
  bySecLabel : List (String × OpField) := []
  bySecId : List (String × OpField) := []
deriving Repr, DecidableEq

/-- One iteration of the map-building loop of `findFieldValue`. -/
def fieldMapsStep (acc : FieldMaps) (field : OpField) : FieldMaps :=
  let currentFieldLabel := field.label.map jsToLower
  let currentFieldId := field.id.map jsToLower
  let currentFieldSectionLabel := (field.«section».bind (fun s => s.label)).map jsToLower
  let currentFieldSectionId := (field.«section».bind (fun s => s.id)).map jsToLower
  let m1 :=
    if jsTruthyO currentFieldLabel then
      jsMapSet acc.byLabel (currentFieldLabel.getD "") field
    else acc.byLabel
  let m2 :=
    if jsTruthyO currentFieldId then
      jsMapSet acc.byId (currentFieldId.getD "") field
    else acc.byId
  let m3a :=
    if jsTruthyO currentFieldSectionLabel ∧ jsTruthyO currentFieldLabel then
      jsMapSet acc.bySecLabel
        (currentFieldSectionLabel.getD "" ++ "." ++ currentFieldLabel.getD "") field
    else acc.bySecLabel
  let m3 :=
    if jsTruthyO currentFieldSectionId ∧ jsTruthyO currentFieldLabel then
      jsMapSet m3a
        (currentFieldSectionId.getD "" ++ "." ++ currentFieldLabel.getD "") field
    else m3a
  let m4a :=
    if jsTruthyO currentFieldSectionLabel ∧ jsTruthyO currentFieldId then
      jsMapSet acc.bySecId
        (currentFieldSectionLabel.getD "" ++ "." ++ currentFieldId.getD "") field
    else acc.bySecId
  let m4 :=
    if jsTruthyO currentFieldSectionId ∧ jsTruthyO currentFieldId then
      jsMapSet m4a
        (currentFieldSectionId.getD "" ++ "." ++ currentFieldId.getD "") field
    else m4a
  { byLabel := m1, byId := m2, bySecLabel := m3, bySecId := m4 }

/-- The map-building loop of `findFieldValue` over all fields in order. -/
def buildFieldMaps (fields : List OpField) : FieldMaps :=
  fields.foldl fieldMapsStep {}

/-- Join a list of strings with `.` (`Array.prototype.join('.')`). -/
def joinDot : List String → String
  | [] => ""
  | [x] => x
  | x :: rest => x ++ "." ++ joinDot rest

/-- Join a list of strings with `", "` (`Array.prototype.join(', ')`). -/
def joinComma : List String → String
  | [] => ""
  | [x] => x
  | x :: rest => x ++ ", " ++ joinComma rest

/-- `findFieldValue` from `OpResolver.ts`: empty-fields guard, then the
session-URL shortcut, then direct label-before-id match, then section.field
match on the last separator, then the `urls`-list fallback. -/
def findFieldValue (itemObject : OpJsItem)
    (resolvedIdentifier : CyOpResolvedSecretIdentifier) : Option String :=
  let fieldSpecifier := resolvedIdentifier.fieldSpecifier
  let url := resolvedIdentifier.target_url
  let fieldSpecifierLower := jsToLower fieldSpecifier
  if ¬ SPECIAL_URL_FIELDS.contains fieldSpecifier ∧
      (itemObject.fields = none ∨ itemObject.fields = some []) then none
  else
    let fields := itemObject.fields.getD []
    let maps := buildFieldMaps fields
    if jsTruthyO url ∧ SPECIAL_URL_FIELDS.contains fieldSpecifierLower then url
    else
      match jsMapGet maps.byLabel fieldSpecifierLower <|>
          jsMapGet maps.byId fieldSpecifierLower with
      | some matchedField => matchedField.value
      | none =>
        let parts := jsSplitChar '.' fieldSpecifier
        let sectionMatch : Option OpField :=
          if parts.length > 1 then
            let targetFieldName := jsToLower ((parts.getLast?).getD "")
            let targetSectionName := jsToLower (joinDot parts.dropLast)
            if jsTruthyS targetFieldName ∧ jsTruthyS targetSectionName then
              jsMapGet maps.bySecLabel (targetSectionName ++ "." ++ targetFieldName) <|>
                jsMapGet maps.bySecId (targetSectionName ++ "." ++ targetFieldName)
            else none
          else none
        match sectionMatch with
        | some matchedField => matchedField.value
        | none =>
          if SPECIAL_URL_FIELDS.contains fieldSpecifierLower then
            match itemObject.urls with
            | some urls =>
              if urls ≠ [] then
                match urls.find? (fun u => u.primary = some true) with
                | some primaryUrl =>
                  if jsTruthyO primaryUrl.href then primaryUrl.href
                  else
                    match urls.head? with
                    | some u0 => if jsTruthyO u0.href then u0.href else none
                    | none => none
                | none =>
                  match urls.head? with
                  | some u0 => if jsTruthyO u0.href then u0.href else none
                  | none => none
              else none
            | none => none
          else none

/-! ## `OpResolver.ts` : `getAndFindSecretValue` and the item cache -/

/-- `CyOpCachedItemEntry`: a fetched item, or a failure record tagged with
the exact vault name, item name and reference that produced it
(`isErrorEntry` distinguishes the two shapes). -/
inductive CachedEntry
  | item (it : OpJsItem)
  | err (message : String) (vaultName itemName originalPath : String)
deriving Repr, DecidableEq

/-- A JavaScript error as observed by the resolver: its `message` and an
optional `stderr` payload. -/
structure JsError where
  message : String
  stderr : Option String := none
deriving Repr, DecidableEq

/-- Possible outcomes of the backend `item.get` call: an item-shaped value,
a non-item-shaped value (a field or an array of fields), or a thrown
error. -/
inductive FetchRes
  | item (it : OpJsItem)
  | nonItem
  | err (e : JsError)
deriving Repr, DecidableEq

/-- The backend collaborator `item.get`, as a deterministic oracle from
`(itemName, vaultName)` to an outcome. -/
def Fetch : Type := String → String → FetchRes

/-- The cache-scan condition of `getAndFindSecretValue` for one entry: an
error entry matches by exact vault-name membership and exact item name; an
item entry matches by vault id or case-insensitive vault name, and item id
or case-insensitive title. -/
def entryMatches (rid : CyOpResolvedSecretIdentifier) (e : CachedEntry) : Bool :=
  match e with
  | .err _ vn inm _ => rid.vaultNames.contains vn && inm = rid.itemName
  | .item it =>
    (rid.vaultNames.any fun vaultName =>
      it.vault.id = vaultName ||
        it.vault.name.map jsToLower = some (jsToLower vaultName)) &&
    (it.id = rid.itemName ||
      it.title.map jsToLower = some (jsToLower rid.itemName))

/-- Print an optional string the way a JS template literal would. -/
def showOpt (o : Option String) : String := o.getD "undefined"

/-- The (vault, item) coverage a cache entry provides, for an exact vault
string `V` and item string `I`: an error entry covers exactly its recorded
vault and item names; an item entry covers `V` by vault id or
case-insensitive vault name and `I` by item id or case-insensitive title.
`entryMatches rid e` holds exactly when some `V ∈ rid.vaultNames` is
covered with `rid.itemName`. -/
def pairCoversB (e : CachedEntry) (V I : String) : Bool :=
  match e with
  | .err _ vn inm _ => vn = V && inm = I
  | .item it =>
    (it.vault.id = V || it.vault.name.map jsToLower = some (jsToLower V)) &&
    (it.id = I || it.title.map jsToLower = some (jsToLower I))

/-- Backend coherence: a successful fetch of `(I, V)` returns an item that
identifies the requested vault (by id or case-insensitive name) and the
requested item (by id or case-insensitive title). -/
def coherentFetch (fetch : Fetch) : Prop :=
  ∀ I V it, fetch I V = .item it → pairCoversB (.item it) V I = true

deriving instance DecidableEq for Except

/-- Result of one `getAndFindSecretValue` call: the returned value (or the
thrown message), the item cache after the call, and the `(itemName,
vaultName)` arguments of the backend fetches the call performed, in order. -/
structure GOut where
  result : Except String (Option String)
  cache : List CachedEntry
  fetched : List (String × String)
deriving Repr, DecidableEq

/-- The vault-iteration loop of `getAndFindSecretValue` (lines 409-499):
returns the outcome, the cache entries pushed, and the fetches performed.
The `errors` array accumulated by the source is never read and is omitted. -/
def vaultLoop (failOnError : Bool) (fetch : Fetch)
    (rid : CyOpResolvedSecretIdentifier) :
    List String → Except String (Option String) × List CachedEntry × List (String × String)
  | [] =>
    let vaultsList := joinComma rid.vaultNames
    let message := "Item \"" ++ rid.itemName ++ "\" not found in any of the specified vaults [" ++
      vaultsList ++ "] for path \"" ++ rid.originalPath ++ "\"."
    (if failOnError then .error (errorTag ++ " " ++ message) else .ok none, [], [])
  | vaultName :: rest =>
    match fetch rid.itemName vaultName with
    | .item it =>
      if it.fields = none then
        -- `!('fields' in fetchedItemData)`: an item value without a
        -- `fields` property takes the not-in-expected-format branch.
        let message := "Data for item \"" ++ rid.itemName ++ "\" (vault \"" ++ vaultName ++
          "\", path \"" ++ rid.originalPath ++ "\") not in expected OpJsItem format."
        let out := vaultLoop failOnError fetch rid rest
        (out.1, .err message vaultName rid.itemName rid.originalPath :: out.2.1,
         (rid.itemName, vaultName) :: out.2.2)
      else
        let secretValue := findFieldValue it rid
        match secretValue with
        | some v => (.ok (some v), [.item it], [(rid.itemName, vaultName)])
        | none =>
          let message := "Field \"" ++ rid.fieldSpecifier ++
            "\" not found or value is null/undefined in item \"" ++ showOpt it.title ++
            "\" (ID: " ++ it.id ++ ", path \"" ++ rid.originalPath ++ "\")."
          (if failOnError then .error (errorTag ++ " " ++ message) else .ok none,
           [.item it], [(rid.itemName, vaultName)])
    | .nonItem =>
      let message := "Data for item \"" ++ rid.itemName ++ "\" (vault \"" ++ vaultName ++
        "\", path \"" ++ rid.originalPath ++ "\") not in expected OpJsItem format."
      let out := vaultLoop failOnError fetch rid rest
      (out.1, .err message vaultName rid.itemName rid.originalPath :: out.2.1,
       (rid.itemName, vaultName) :: out.2.2)
    | .err e =>
      let entry := CachedEntry.err e.message vaultName rid.itemName rid.originalPath
      if some vaultName = rid.vaultNames.getLast? then
        let errorMessage := e.message ++
          (match e.stderr with | some s => "\nStderr: " ++ s | none => "")
        if e.message ≠ "" ∧ strBegins e.message errorTag then
          (if failOnError then .error e.message else .ok none,
           [entry], [(rid.itemName, vaultName)])
        else
          let fullErrorMessage :=
            if rid.vaultNames.length = 1 then
              "Failed to load secret for path \"" ++ rid.originalPath ++ "\" (Item: \"" ++
                rid.itemName ++ "\", Vault: \"" ++ (rid.vaultNames.headD "") ++ "\"): " ++
                errorMessage
            else
              "Failed to load secret for path \"" ++ rid.originalPath ++ "\" (Item: \"" ++
                rid.itemName ++ "\") after trying all vaults [" ++ joinComma rid.vaultNames ++
                "]. Last error: " ++ errorMessage
          (if failOnError then .error (errorTag ++ " " ++ fullErrorMessage) else .ok none,
           [entry], [(rid.itemName, vaultName)])
      else
        let out := vaultLoop failOnError fetch rid rest
        (out.1, entry :: out.2.1, (rid.itemName, vaultName) :: out.2.2)

/-- `getAndFindSecretValue` from `OpResolver.ts`: scan the item cache for
the first matching entry (reproducing a cached failure, or re-running the
field matcher on a cached item), and otherwise try each candidate vault in
order. -/
def getAndFindSecretValue (failOnError : Bool) (fetch : Fetch)
    (itemCache : List CachedEntry) (rid : CyOpResolvedSecretIdentifier) : GOut :=
  match itemCache.find? (entryMatches rid) with
  | some (.err msg vn _ origp) =>
    let message := "Previously failed to fetch item \"" ++ rid.itemName ++ "\" (vault \"" ++
      vn ++ "\") for path \"" ++ origp ++ "\". Error: " ++ msg
    { result := if failOnError then .error (errorTag ++ " " ++ message) else .ok none,
      cache := itemCache, fetched := [] }
  | some (.item it) =>
    match findFieldValue it rid with
    | some v => { result := .ok (some v), cache := itemCache, fetched := [] }
    | none =>
      let message := "Field \"" ++ rid.fieldSpecifier ++
        "\" not found or value is null/undefined in cached item \"" ++ showOpt it.title ++
        "\" (ID: " ++ it.id ++ ", path \"" ++ rid.originalPath ++ "\")."
      { result := if failOnError then .error (errorTag ++ " " ++ message) else .ok none,
        cache := itemCache, fetched := [] }
  | none =>
    let out := vaultLoop failOnError fetch rid rid.vaultNames
    { result := out.1, cache := itemCache ++ out.2.1, fetched := out.2.2 }

/-- A whole sequence of resolution requests processed against one shared
item cache (the shape of one resolution pass at the fetch-and-cache level,
whether the requests come from direct references or from placeholders).
Returns the final cache and the concatenated fetch trace. -/
def runRequests (failOnError : Bool) (fetch : Fetch) :
    List CyOpResolvedSecretIdentifier → List CachedEntry →
    List CachedEntry × List (String × String)
  | [], cache => (cache, [])
  | rid :: rest, cache =>
    let out := getAndFindSecretValue failOnError fetch cache rid
    let next := runRequests failOnError fetch rest out.cache
    (next.1, out.fetched ++ next.2)

/-! ## `String.prototype.replace` with a string pattern -/

/-- Index of the first occurrence of `sub` in a character list. -/
def findSubIdx (sub : List Char) : List Char → Option Nat
  | [] => if prefChars sub [] then some 0 else none
  | c :: rest =>
    if prefChars sub (c :: rest) then some 0
    else (findSubIdx sub rest).map (fun i => i + 1)

/-- ECMAScript `GetSubstitution` for a string search value (no capture
groups): `$$`, `$&`, backtick-`$` and quote-`$` are active, every other
`$` sequence stays literal. -/
def expandRepl (matched before after : List Char) : List Char → List Char
  | [] => []
  | c :: rest =>
    if c = '$' then
      match rest with
      | [] => ['$']
      | c2 :: rest2 =>
        if c2 = '$' then '$' :: expandRepl matched before after rest2
        else if c2 = '&' then matched ++ expandRepl matched before after rest2
        else if c2 = Char.ofNat 96 then before ++ expandRepl matched before after rest2
        else if c2 = Char.ofNat 39 then after ++ expandRepl matched before after rest2
        else '$' :: expandRepl matched before after (c2 :: rest2)
    else c :: expandRepl matched before after rest

/-- Does the list contain no active `$` sequence (`$$`, `$&`, backtick-`$`,
quote-`$`)?  When it does not, `GetSubstitution` leaves it unchanged. -/
def noActiveDollar : List Char → Bool
  | [] => true
  | c :: rest =>
    if c = '$' then
      match rest with
      | [] => true
      | c2 :: _ =>
        if c2 = '$' || c2 = '&' || c2 = Char.ofNat 96 || c2 = Char.ofNat 39 then false
        else noActiveDollar rest
    else noActiveDollar rest

/-- `String.prototype.replace(pattern, replacement)` with string arguments:
replace the first occurrence of `pattern`, expanding `$` sequences in the
replacement. -/
def jsReplaceOnce (s pattern replacement : String) : String :=
  match findSubIdx pattern.data s.data with
  | none => s
  | some i =>
    let before := s.data.take i
    let after := s.data.drop (i + pattern.data.length)
    String.mk (before ++ expandRepl pattern.data before after replacement.data ++ after)

/-- Replacing the first occurrence of `pattern` by splicing `replacement`
in literally (the behaviour `replace` has only when the replacement
contains no active `$` sequence). -/
def literalSplice (s pattern replacement : String) : String :=
  match findSubIdx pattern.data s.data with
  | none => s
  | some i => String.mk (s.data.take i ++ replacement.data ++
      s.data.drop (i + pattern.data.length))

/-! ## `constants.ts` : the placeholder regex, as an explicit matcher

The pattern is `{{\s{0,20}(op://[^}]+?)\s{0,20}}}` with the `g` flag: a pair
of double braces wrapping at most 20 whitespace characters on each side of
a lazily-matched `op://` reference. -/

/-- The `{` character. -/
def lbrace : Char := Char.ofNat 123

/-- The `}` character. -/
def rbrace : Char := Char.ofNat 125

/-- Match of the closing part (up to 20 whitespace characters, then two
closing braces) at the head of `l`; returns the consumed length. -/
def closeMatch (l : List Char) : Option Nat :=
  let r := (l.takeWhile isJsWs).length
  if r ≤ 20 then
    match l.drop r with
    | a :: b :: _ => if a = rbrace ∧ b = rbrace then some (r + 2) else none
    | _ => none
  else none

/-- The lazy `[^}]+?` scan: consume the fewest (at least one) non-`}`
characters after which the closing part matches.  Returns the content and
the total length consumed (content plus closing). -/
def innerScan : Nat → List Char → List Char → Option (List Char × Nat)
  | 0, _, _ => none
  | Nat.succ n, acc, l =>
    match l with
    | [] => none
    | c :: rest =>
      if c = rbrace then none
      else
        let acc' := c :: acc
        match closeMatch rest with
        | some clen => some (acc'.reverse, acc'.length + clen)
        | none => innerScan n acc' rest

/-- Match of the whole placeholder pattern at the head of `l`: returns the
total match length and the captured `op://...` group. -/
def matchSuffix (l : List Char) : Option (Nat × String) :=
  match l with
  | a :: b :: rest =>
    if a = lbrace ∧ b = lbrace then
      let w1 := (rest.takeWhile isJsWs).length
      if w1 ≤ 20 ∧ prefChars opScheme.data (rest.drop w1) then
        let inner := rest.drop (w1 + 5)
        match innerScan inner.length [] inner with
        | some (content, consumed) =>
          some (2 + w1 + 5 + consumed, String.mk (opScheme.data ++ content))
        | none => none
      else none
    else none
  | _ => none

/-- The `exec` loop over a `g`-flagged regex: all non-overlapping matches,
left to right, as `(matched text, captured group)` pairs. -/
def scanPlaceholders : Nat → List Char → List (String × String)
  | 0, _ => []
  | Nat.succ n, l =>
    match l with
    | [] => []
    | _ :: rest =>
      match matchSuffix l with
      | some (len, grp) => (String.mk (l.take len), grp) :: scanPlaceholders n (l.drop len)
      | none => scanPlaceholders n rest

/-- All placeholders of a string (`replacePlaceholders`' collection loop). -/
def placeholdersOf (s : String) : List (String × String) :=
  scanPlaceholders s.data.length s.data

/-! ## `OpResolver.ts` : `replacePlaceholders`, `resolveOpUri`, `resolve` -/

/-- The mutable state of an `OpResolver` instance: the item cache and the
resolved-secrets cache (the latter maps a raw reference string to its
resolved value, where a recorded `none` models a stored `undefined`). -/
structure ResolverState where
  itemCache : List CachedEntry := []
  resolvedSecretsCache : List (String × Option String) := []
deriving Repr, DecidableEq

/-- `Map.prototype.has` on the resolved-secrets cache. -/
def rcacheHas (m : List (String × Option String)) (k : String) : Bool :=
  m.any (fun kv => kv.1 = k)

/-- `Map.prototype.get` on the resolved-secrets cache (most recent `set`
wins). -/
def rcacheGet (m : List (String × Option String)) (k : String) : Option String :=
  ((m.find? (fun kv => kv.1 = k)).map (fun kv => kv.2)).getD none

/-- Result of `replacePlaceholders`: a propagating exception (when
`thrown` is set), otherwise the rewritten string; plus the instance state
and the backend fetches performed. -/
structure RPOut where
  thrown : Option String := none
  resultString : String
  st : ResolverState
  fetched : List (String × String) := []
deriving Repr, DecidableEq

/-- The per-placeholder loop of `replacePlaceholders`. -/
def rpLoop (failOnError : Bool) (fetch : Fetch) (env : List (String × EnvVal))
    (proc : ProcEnv) :
    List (String × String) → String → ResolverState → RPOut
  | [], resultString, st => { resultString := resultString, st := st }
  | (placeholder, opPath) :: rest, resultString, st =>
    if rcacheHas st.resolvedSecretsCache opPath then
      match rcacheGet st.resolvedSecretsCache opPath with
      | some v =>
        rpLoop failOnError fetch env proc rest (jsReplaceOnce resultString placeholder v) st
      | none => rpLoop failOnError fetch env proc rest resultString st
    else
      match resolveSecretPath env proc opPath with
      | none =>
        if failOnError then
          { thrown := some (errorTag ++ " Cannot resolve path for placeholder \"" ++
              placeholder ++ "\" (path: \"" ++ opPath ++ "\")."),
            resultString := resultString, st := st }
        else
          rpLoop failOnError fetch env proc rest resultString
            { st with resolvedSecretsCache := (opPath, none) :: st.resolvedSecretsCache }
      | some rid =>
        let out := getAndFindSecretValue failOnError fetch st.itemCache rid
        match out.result with
        | .error msg =>
          { thrown := some msg, resultString := resultString,
            st := { st with itemCache := out.cache }, fetched := out.fetched }
        | .ok secretValue =>
          let st' : ResolverState :=
            { itemCache := out.cache,
              resolvedSecretsCache := (opPath, secretValue) :: st.resolvedSecretsCache }
          let next :=
            match secretValue with
            | some v =>
              rpLoop failOnError fetch env proc rest
                (jsReplaceOnce resultString placeholder v) st'
            | none => rpLoop failOnError fetch env proc rest resultString st'
          { next with fetched := out.fetched ++ next.fetched }

/-- `replacePlaceholders` from `OpResolver.ts`. -/
def replacePlaceholders (failOnError : Bool) (fetch : Fetch)
    (env : List (String × EnvVal)) (proc : ProcEnv) (st : ResolverState)
    (originalString : String) : RPOut :=
  rpLoop failOnError fetch env proc (placeholdersOf originalString) originalString st

/-- `resolveOpUri` from `OpResolver.ts`: resolve one direct `op://` path. -/
def resolveOpUri (failOnError : Bool) (fetch : Fetch)
    (env : List (String × EnvVal)) (proc : ProcEnv) (st : ResolverState)
    (opUri : String) : GOut :=
  match resolveSecretPath env proc opUri with
  | none =>
    { result :=
        if failOnError then
          .error (errorTag ++ " Cannot resolve path \"" ++ opUri ++ "\".")
        else .ok none,
      cache := st.itemCache, fetched := [] }
  | some rid => getAndFindSecretValue failOnError fetch st.itemCache rid

/-! ### The configuration object and the env heap

`resolve` spreads `this.cypressConfig` one level deep, so the returned
configuration is a fresh record whose `env` property is the *same* object
reference as the caller's.  Object identity of the env map is made explicit
through a heap of env objects addressed by `Nat`. -/

/-- A heap of `env` objects; an address is an index. -/
abbrev Heap : Type := List (List (String × EnvVal))

/-- Read the env object at address `a`. -/
def heapGet (h : Heap) (a : Nat) : List (String × EnvVal) := h.getD a []

/-- Overwrite the env object at address `a`. -/
def heapSet (h : Heap) (a : Nat) (env : List (String × EnvVal)) : Heap :=
  h.set a env

/-- JavaScript property write on the env object: update the value of an
existing key in place, else append the key. -/
def envSetKV (env : List (String × EnvVal)) (k : String) (v : EnvVal) :
    List (String × EnvVal) :=
  if env.any (fun kv => kv.1 = k) then
    env.map (fun kv => if kv.1 = k then (k, v) else kv)
  else env ++ [(k, v)]

/-- A Cypress configuration object: the `env` property is either absent or
a reference to an env object in the heap (all other properties are opaque
and play no role in resolution). -/
structure ConfigObj where
  envRef : Option Nat := none
deriving Repr, DecidableEq

/-- Result of a `resolve()` call: the returned configuration or the thrown
message, the heap after all in-place env writes, the resolver state, and
the backend fetches performed. -/
structure RunOut where
  result : Except String ConfigObj
  heap : Heap
  state : ResolverState
  fetched : List (String × String)

/-- The per-entry loop of `resolve` over the env keys (writes go through
the shared env reference `a`; each iteration re-reads the current env
object, as the source reads `updatedConfig.env[envVarName]` afresh). -/
def resolveEntries (failOnError : Bool) (fetch : Fetch) (proc : ProcEnv) :
    List String → Nat → Heap → ResolverState →
    Option String × Heap × ResolverState × List (String × String)
  | [], _, h, st => (none, h, st, [])
  | envVarName :: restKeys, a, h, st =>
    if envVarName = "C8Y_SESSION" ∨ envVarName = "CYOP_SESSION" then
      resolveEntries failOnError fetch proc restKeys a h st
    else
      let env := heapGet h a
      match envGet env envVarName with
      | some (.vstr s0) =>
        let originalValue := jsTrim s0
        if strBegins originalValue opScheme then
          let opPath := originalValue
          let out := resolveOpUri failOnError fetch env proc st opPath
          let st' := { st with itemCache := out.cache }
          match out.result with
          | .ok (some secretValue) =>
            let h' := heapSet h a (envSetKV env envVarName (.vstr secretValue))
            let next := resolveEntries failOnError fetch proc restKeys a h' st'
            (next.1, next.2.1, next.2.2.1, out.fetched ++ next.2.2.2)
          | .ok none =>
            let next := resolveEntries failOnError fetch proc restKeys a h st'
            (next.1, next.2.1, next.2.2.1, out.fetched ++ next.2.2.2)
          | .error msg =>
            if failOnError then
              if msg ≠ "" ∧ hasSub msg "Cannot resolve path" ∧ ¬ hasSub msg "env var" then
                (some (errorTag ++ " Cannot resolve path for env var \"" ++ envVarName ++
                  "\" (path: \"" ++ opPath ++ "\")."), h, st', out.fetched)
              else (some msg, h, st', out.fetched)
            else
              let next := resolveEntries failOnError fetch proc restKeys a h st'
              (next.1, next.2.1, next.2.2.1, out.fetched ++ next.2.2.2)
        else if placeholdersOf originalValue ≠ [] then
          let rp := replacePlaceholders failOnError fetch env proc st originalValue
          match rp.thrown with
          | some msg =>
            if failOnError then (some msg, h, rp.st, rp.fetched)
            else
              let next := resolveEntries failOnError fetch proc restKeys a h rp.st
              (next.1, next.2.1, next.2.2.1, rp.fetched ++ next.2.2.2)
          | none =>
            let h' := heapSet h a (envSetKV env envVarName (.vstr rp.resultString))
            let next := resolveEntries failOnError fetch proc restKeys a h' rp.st
            (next.1, next.2.1, next.2.2.1, rp.fetched ++ next.2.2.2)
        else resolveEntries failOnError fetch proc restKeys a h st
      | _ => resolveEntries failOnError fetch proc restKeys a h st

/-- `OpResolver.resolve()` (together with the constructor's shallow copy
`this.cypressConfig = { ...config }`): validate the backend once, then
process every env entry, honouring the fail policy.  `validate` is the
outcome of the upfront `validateCli()` call. -/
def OpResolver.resolve (failOnError : Bool) (validate : Except String Unit)
    (fetch : Fetch) (proc : ProcEnv) (config : ConfigObj) (h : Heap)
    (st : ResolverState) : RunOut :=
  let cypressConfig : ConfigObj := { envRef := config.envRef }
  let updatedConfig : ConfigObj := { envRef := cypressConfig.envRef }
  match validate with
  | .error _ => { result := .ok cypressConfig, heap := h, state := st, fetched := [] }
  | .ok _ =>
    match updatedConfig.envRef with
    | none => { result := .ok updatedConfig, heap := h, state := st, fetched := [] }
    | some a =>
      let keys := (heapGet h a).map (fun kv => kv.1)
      let out := resolveEntries failOnError fetch proc keys a h st
      match out.1 with
      | some msg =>
        { result := .error msg, heap := out.2.1, state := out.2.2.1, fetched := out.2.2.2 }
      | none =>
        { result := .ok updatedConfig, heap := out.2.1, state := out.2.2.1,
          fetched := out.2.2.2 }

/-! ## Reference formulations of the four field-lookup maps

`Map.get` returns the most recent `set` for a key, so each of the four
pre-computed maps of `findFieldValue` is equivalent to searching the
*reversed* field list for the first field eligible under the map's key
discipline.  These predicates state that discipline per field; the
equivalence to the fold-built maps is proved below. -/

/-- Eligibility for the label-keyed direct map under `key`. -/
def labelPred (key : String) (f : OpField) : Bool :=
  match f.label with
  | some s => jsToLower s ≠ "" && jsToLower s = key
  | none => false

/-- The field the label-keyed map yields for `key`. -/
def labelFind (fields : List OpField) (key : String) : Option OpField :=
  fields.reverse.find? (labelPred key)

/-- Eligibility for the id-keyed direct map under `key`. -/
def idPred (key : String) (f : OpField) : Bool :=
  match f.id with
  | some s => jsToLower s ≠ "" && jsToLower s = key
  | none => false

/-- The field the id-keyed map yields for `key`. -/
def idFind (fields : List OpField) (key : String) : Option OpField :=
  fields.reverse.find? (idPred key)

/-- Eligibility for the section/label map under `key` (keyed by section
label or section id, joined with the field's label). -/
def secLabelPred (key : String) (f : OpField) : Bool :=
  let lbl := f.label.map jsToLower
  let sl := (f.«section».bind OpSection.label).map jsToLower
  let si := (f.«section».bind OpSection.id).map jsToLower
  (jsTruthyO sl && jsTruthyO lbl && decide (sl.getD "" ++ "." ++ lbl.getD "" = key)) ||
  (jsTruthyO si && jsTruthyO lbl && decide (si.getD "" ++ "." ++ lbl.getD "" = key))

/-- The field the section/label map yields for `key`. -/
def secLabelFind (fields : List OpField) (key : String) : Option OpField :=
  fields.reverse.find? (secLabelPred key)

/-- Eligibility for the section/id map under `key` (keyed by section label
or section id, joined with the field's id). -/
def secIdPred (key : String) (f : OpField) : Bool :=
  let fid := f.id.map jsToLower
  let sl := (f.«section».bind OpSection.label).map jsToLower
  let si := (f.«section».bind OpSection.id).map jsToLower
  (jsTruthyO sl && jsTruthyO fid && decide (sl.getD "" ++ "." ++ fid.getD "" = key)) ||
  (jsTruthyO si && jsTruthyO fid && decide (si.getD "" ++ "." ++ fid.getD "" = key))

/-- The field the section/id map yields for `key`. -/
def secIdFind (fields : List OpField) (key : String) : Option OpField :=
  fields.reverse.find? (secIdPred key)

end CyOp

namespace CyOp

/-! ## Shared auxiliary lemmas -/

theorem jsTruthyS_iff (s : String) : jsTruthyS s = true ↔ s ≠ "" := by
  simp [jsTruthyS]

theorem strBegins_op_ne (s : String) (h : strBegins s opScheme = true) : s ≠ "" := by
  intro hc
  subst hc
  exact absurd h (by decide)

theorem jsTrim_empty : jsTrim "" = "" := by decide

theorem strLen_pos_iff (s : String) : (s.length > 0) ↔ s ≠ "" := by
  constructor
  · intro h hc
    subst hc
    simp [String.length] at h
  · intro h
    cases s with
    | mk data =>
      cases data with
      | nil => exact absurd (by decide) h
      | cons c cs =>
        simp only [String.length, List.length_cons]
        omega

theorem pathPartsOf_empty (s : String)
    (h : String.mk (s.data.drop opSchemeLength) = "") : pathPartsOf s = [""] := by
  unfold pathPartsOf
  rw [h]
  decide

theorem spreadOpt_of_trim (a : String) (h : jsTrim a ≠ "") :
    spreadOpt (some a) jsTrim = some (jsTrim a) := by
  have ha : a ≠ "" := by
    intro hc
    subst hc
    exact h jsTrim_empty
  simp [spreadOpt, ha]

/-- C7: a raw reference parses successfully exactly when it starts with the
scheme prefix and its path yields between 1 and 3 segments that are all
non-empty after trimming; and the segment-to-component mapping is: 1
segment gives a field; 2 segments give item/field in non-session form and
vault/item (no field) in session form; 3 segments give vault/item/field
regardless of the session flag; all returned segments are trimmed. -/
theorem parseOpUri_spec :
    (∀ s sess, (parseOpUri s sess).isSome = true ↔
      (strBegins s opScheme = true ∧ 1 ≤ (pathPartsOf s).length ∧
        (pathPartsOf s).length ≤ 3 ∧ ∀ p ∈ pathPartsOf s, jsTrim p ≠ "")) ∧
    (∀ s sess a, strBegins s opScheme = true → pathPartsOf s = [a] →
      jsTrim a ≠ "" →
      parseOpUri s sess = some { field := some (jsTrim a), url := urlComponent s }) ∧
    (∀ s a b, strBegins s opScheme = true → pathPartsOf s = [a, b] →
      jsTrim a ≠ "" → jsTrim b ≠ "" →
      parseOpUri s false =
        some { item := some (jsTrim a), field := some (jsTrim b), url := urlComponent s }) ∧
    (∀ s a b, strBegins s opScheme = true → pathPartsOf s = [a, b] →
      jsTrim a ≠ "" → jsTrim b ≠ "" →
      parseOpUri s true =
        some { vault := some (jsTrim a), item := some (jsTrim b), url := urlComponent s }) ∧
    (∀ s sess a b c, strBegins s opScheme = true → pathPartsOf s = [a, b, c] →
      jsTrim a ≠ "" → jsTrim b ≠ "" → jsTrim c ≠ "" →
      parseOpUri s sess =
        some { vault := some (jsTrim a), item := some (jsTrim b),
               field := some (jsTrim c), url := urlComponent s }) := by
  have hbody : ∀ s : String, strBegins s opScheme = true →
      (∃ p ∈ pathPartsOf s, jsTrim p ≠ "") →
      jsTruthyS (String.mk (s.data.drop opSchemeLength)) = true := by
    intro s _ hex
    rw [jsTruthyS_iff]
    intro hcon
    obtain ⟨p, hp, hpt⟩ := hex
    rw [pathPartsOf_empty s hcon] at hp
    simp at hp
    subst hp
    exact hpt jsTrim_empty
  refine ⟨?_, ?_, ?_, ?_, ?_⟩
  · intro s sess
    by_cases h1 : strBegins s opScheme = true
    · have hs : jsTruthyS s = true := (jsTruthyS_iff s).mpr (strBegins_op_ne s h1)
      by_cases h2 : String.mk (s.data.drop opSchemeLength) = ""
      · have hpp := pathPartsOf_empty s h2
        have h2' : jsTruthyS (String.mk (s.data.drop opSchemeLength)) = false := by
          rw [h2]; decide
        simp [parseOpUri, hs, h1, h2', hpp, jsTrim_empty]
      · have h2' : jsTruthyS (String.mk (s.data.drop opSchemeLength)) = true := by
          rw [jsTruthyS_iff]
          intro hc
          exact h2 hc
        simp only [parseOpUri, hs, h1, h2', MIN_PATH_PARTS, MAX_PATH_PARTS,
          not_true_eq_false, not_false_eq_true, and_self, if_false, if_true,
          ite_not]
        by_cases hv : 1 ≤ (pathPartsOf s).length ∧ (pathPartsOf s).length ≤ 3 ∧
            (pathPartsOf s).all (fun p => (jsTrim p).length > 0) = true
        · rw [if_pos hv]
          simp only [Option.isSome_some, true_iff]
          obtain ⟨hv1, hv2, hv3⟩ := hv
          refine ⟨?_, hv1, hv2, fun p hp => (strLen_pos_iff (jsTrim p)).mp
            (by simpa using (List.all_eq_true.mp hv3) p hp)⟩
          simp [h1]
        · rw [if_neg hv]
          simp only [Option.isSome_none]
          constructor
          · intro hc
            simp at hc
          · intro hrhs
            exfalso
            apply hv
            obtain ⟨_, hv1, hv2, hv4⟩ := hrhs
            refine ⟨hv1, hv2, ?_⟩
            rw [List.all_eq_true]
            intro p hp
            simpa using (strLen_pos_iff (jsTrim p)).mpr (hv4 p hp)
    · have h1' : strBegins s opScheme = false := by
        cases hq : strBegins s opScheme with
        | false => rfl
        | true => exact absurd hq h1
      simp [parseOpUri, h1']
  · intro s sess a h1 h2 h3
    have hs : jsTruthyS s = true := (jsTruthyS_iff s).mpr (strBegins_op_ne s h1)
    have hpc := hbody s h1 ⟨a, by rw [h2]; simp, h3⟩
    simp only [parseOpUri, hs, h1, hpc, h2, MIN_PATH_PARTS, MAX_PATH_PARTS,
      not_true_eq_false, and_self, if_false, ite_not]
    have hlen : (1 ≤ ([a] : List String).length ∧ ([a] : List String).length ≤ 3 ∧
        ([a] : List String).all (fun p => (jsTrim p).length > 0) = true) := by
      refine ⟨by simp, by simp, ?_⟩
      simp [List.all_eq_true]
      exact (strLen_pos_iff (jsTrim a)).mpr h3
    have ha : a ≠ "" := fun hc => h3 (by rw [hc]; exact jsTrim_empty)
    simp only [hlen, if_true]
    simp [spreadOpt, ha]
  · intro s a b h1 h2 h3 h4
    have hs : jsTruthyS s = true := (jsTruthyS_iff s).mpr (strBegins_op_ne s h1)
    have hpc := hbody s h1 ⟨a, by rw [h2]; simp, h3⟩
    simp only [parseOpUri, hs, h1, hpc, h2, MIN_PATH_PARTS, MAX_PATH_PARTS,
      not_true_eq_false, and_self, if_false, ite_not]
    have hlen : (1 ≤ ([a, b] : List String).length ∧ ([a, b] : List String).length ≤ 3 ∧
        ([a, b] : List String).all (fun p => (jsTrim p).length > 0) = true) := by
      refine ⟨by simp, by simp, ?_⟩
      simp [List.all_eq_true]
      exact ⟨(strLen_pos_iff (jsTrim a)).mpr h3, (strLen_pos_iff (jsTrim b)).mpr h4⟩
    have ha : a ≠ "" := fun hc => h3 (by rw [hc]; exact jsTrim_empty)
    have hb : b ≠ "" := fun hc => h4 (by rw [hc]; exact jsTrim_empty)
    simp only [hlen, if_true]
    simp [spreadOpt, ha, hb]
  · intro s a b h1 h2 h3 h4
    have hs : jsTruthyS s = true := (jsTruthyS_iff s).mpr (strBegins_op_ne s h1)
    have hpc := hbody s h1 ⟨a, by rw [h2]; simp, h3⟩
    simp only [parseOpUri, hs, h1, hpc, h2, MIN_PATH_PARTS, MAX_PATH_PARTS,
      not_true_eq_false, and_self, if_false, ite_not]
    have hlen : (1 ≤ ([a, b] : List String).length ∧ ([a, b] : List String).length ≤ 3 ∧
        ([a, b] : List String).all (fun p => (jsTrim p).length > 0) = true) := by
      refine ⟨by simp, by simp, ?_⟩
      simp [List.all_eq_true]
      exact ⟨(strLen_pos_iff (jsTrim a)).mpr h3, (strLen_pos_iff (jsTrim b)).mpr h4⟩
    have ha : a ≠ "" := fun hc => h3 (by rw [hc]; exact jsTrim_empty)
    have hb : b ≠ "" := fun hc => h4 (by rw [hc]; exact jsTrim_empty)
    simp only [hlen, if_true]
    simp [spreadOpt, ha, hb]
  · intro s sess a b c h1 h2 h3 h4 h5
    have hs : jsTruthyS s = true := (jsTruthyS_iff s).mpr (strBegins_op_ne s h1)
    have hpc := hbody s h1 ⟨a, by rw [h2]; simp, h3⟩
    simp only [parseOpUri, hs, h1, hpc, h2, MIN_PATH_PARTS, MAX_PATH_PARTS,
      not_true_eq_false, and_self, if_false, ite_not]
    have hlen : (1 ≤ ([a, b, c] : List String).length ∧
        ([a, b, c] : List String).length ≤ 3 ∧
        ([a, b, c] : List String).all (fun p => (jsTrim p).length > 0) = true) := by
      refine ⟨by simp, by simp, ?_⟩
      simp [List.all_eq_true]
      exact ⟨(strLen_pos_iff (jsTrim a)).mpr h3, (strLen_pos_iff (jsTrim b)).mpr h4,
        (strLen_pos_iff (jsTrim c)).mpr h5⟩
    have ha : a ≠ "" := fun hc => h3 (by rw [hc]; exact jsTrim_empty)
    have hb : b ≠ "" := fun hc => h4 (by rw [hc]; exact jsTrim_empty)
    have hc2 : c ≠ "" := fun hcc => h5 (by rw [hcc]; exact jsTrim_empty)
    simp only [hlen, if_true]
    simp [spreadOpt, ha, hb, hc2]

/-- C7 witness: the theorem applied at concrete references of each shape. -/
theorem parseOpUri_spec_witness :
    (parseOpUri "op://MyVault/MyItem/MyField" false).isSome = true ∧
    parseOpUri "op:// f " true = some { field := some "f", url := none } ∧
    parseOpUri "op://i/f" false = some { item := some "i", field := some "f", url := none } ∧
    parseOpUri "op://v/i" true = some { vault := some "v", item := some "i", url := none } ∧
    parseOpUri "op://v/i/f" true =
      some { vault := some "v", item := some "i", field := some "f", url := none } := by
  refine ⟨?_, ?_, ?_, ?_, ?_⟩
  · exact (parseOpUri_spec.1 "op://MyVault/MyItem/MyField" false).mpr (by decide)
  · have := parseOpUri_spec.2.1 "op:// f " true " f " (by decide) (by decide) (by decide)
    rw [this]
    decide
  · have := parseOpUri_spec.2.2.1 "op://i/f" "i" "f" (by decide) (by decide) (by decide) (by decide)
    rw [this]
    decide
  · have := parseOpUri_spec.2.2.2.1 "op://v/i" "v" "i" (by decide) (by decide) (by decide) (by decide)
    rw [this]
    decide
  · have := parseOpUri_spec.2.2.2.2 "op://v/i/f" true "v" "i" "f" (by decide) (by decide)
      (by decide) (by decide) (by decide)
    rw [this]
    decide

/-- C3 counterexample: a reference whose own query string carries a
`target_url` is resolved against a session that also carries one, and the
identifier carries the *session* URL, not the reference's own URL — the
claim's direction of precedence fails on this input. -/
theorem target_url_session_wins_cex :
    (parseOpUri "op://v/i/f?target_url=https://ref.example" false).bind OpUri.url =
      some "https://ref.example" ∧
    (ambientAdjusted
      [("CYOP_SESSION", EnvVal.vstr "op://SV/SI?target_url=https://sess.example")]
      {}).2.2 = some "https://sess.example" ∧
    (resolveSecretPath
      [("CYOP_SESSION", EnvVal.vstr "op://SV/SI?target_url=https://sess.example")]
      {} "op://v/i/f?target_url=https://ref.example").map
        (fun r => r.target_url) = some (some "https://sess.example") ∧
    ("https://sess.example" : String) ≠ "https://ref.example" := by decide

/-- C3 amended: the target URL of a resolved identifier is the session URL
when one is present, and the URL from the reference's own query string only
otherwise (`sessionUrl ?? opUri.url` — the session URL takes precedence). -/
theorem target_url_precedence (env : List (String × EnvVal)) (proc : ProcEnv)
    (path : String) (rid : CyOpResolvedSecretIdentifier)
    (h : resolveSecretPath env proc path = some rid) :
    rid.target_url = ((ambientAdjusted env proc).2.2 <|>
      (parseOpUri path false).bind OpUri.url) := by
  unfold resolveSecretPath at h
  cases hp : parseOpUri path false with
  | none =>
    rw [hp] at h
    simp at h
  | some opUri =>
    rw [hp] at h
    dsimp only at h
    repeat' split at h
    all_goals
      first
      | exact Option.noConfusion h
      | · have hrec := Option.some.inj h
          rw [← hrec]
          simp

/-- C3 amended witness: the theorem applied at the counterexample's input. -/
theorem target_url_precedence_witness :
    ({ vaultNames := ["v"], itemName := "i", fieldSpecifier := "f",
       originalPath := "op://v/i/f?target_url=https://ref.example",
       target_url := some "https://sess.example" } :
      CyOpResolvedSecretIdentifier).target_url =
      ((ambientAdjusted
        [("CYOP_SESSION", EnvVal.vstr "op://SV/SI?target_url=https://sess.example")]
        {}).2.2 <|>
       (parseOpUri "op://v/i/f?target_url=https://ref.example" false).bind OpUri.url) :=
  target_url_precedence _ _ _ _ (by decide)

/-- C4: when the parsed session reference carries both a (truthy) vault and
item, they replace the ambient vault and item settings outright, whatever
those were; when it carries only one of the two, the ambient values are
kept whenever truthy and the session value fills in only a falsy ambient
slot. -/
theorem session_override_semantics :
    (∀ (vaultEnv : Option EnvVal) (itemEnv : Option String) (so : OpUri) (v i : String),
      so.vault = some v → so.item = some i → v ≠ "" → i ≠ "" →
      sessionAdjust vaultEnv itemEnv (some so) =
        (some (EnvVal.vstr v), some i, so.url)) ∧
    (∀ (vaultEnv : Option EnvVal) (itemEnv : Option String) (so : OpUri) (v : String),
      so.vault = some v → so.item = none →
      (sessionAdjust vaultEnv itemEnv (some so)).2.1 = itemEnv ∧
      (jsTruthyE vaultEnv = true →
        (sessionAdjust vaultEnv itemEnv (some so)).1 = vaultEnv) ∧
      (jsTruthyE vaultEnv = false → v ≠ "" →
        (sessionAdjust vaultEnv itemEnv (some so)).1 = some (EnvVal.vstr v))) ∧
    (∀ (vaultEnv : Option EnvVal) (itemEnv : Option String) (so : OpUri) (i : String),
      so.vault = none → so.item = some i →
      (sessionAdjust vaultEnv itemEnv (some so)).1 = vaultEnv ∧
      (jsTruthyO itemEnv = true →
        (sessionAdjust vaultEnv itemEnv (some so)).2.1 = itemEnv) ∧
      (jsTruthyO itemEnv = false → i ≠ "" →
        (sessionAdjust vaultEnv itemEnv (some so)).2.1 = some i)) := by
  refine ⟨?_, ?_, ?_⟩
  · intro vaultEnv itemEnv so v i hv hi hvt hit
    simp [sessionAdjust, hv, hi, jsTruthyO, hvt, hit]
  · intro vaultEnv itemEnv so v hv hi
    refine ⟨?_, ?_, ?_⟩
    · simp [sessionAdjust, hv, hi, jsTruthyO]
    · intro ht
      simp [sessionAdjust, hv, hi, jsTruthyO, ht]
    · intro ht hvt
      simp [sessionAdjust, hv, hi, jsTruthyO, ht, hvt]
  · intro vaultEnv itemEnv so i hv hi
    have hn : jsTruthyO none = false := rfl
    refine ⟨?_, ?_, ?_⟩
    · simp [sessionAdjust, hv, hi, hn]
    · intro ht
      simp [sessionAdjust, hv, hi, ht, hn]
    · intro ht hit
      have hi' : jsTruthyO (some i) = true := by simp [jsTruthyO, hit]
      simp [sessionAdjust, hv, hi, ht, hi', hn]

/-- C4 witness: the three clauses applied at concrete session references and
ambient settings. -/
theorem session_override_semantics_witness :
    sessionAdjust (some (.vstr "AmbV")) (some "AmbI")
      (some { vault := some "SV", item := some "SI" }) =
      (some (.vstr "SV"), some "SI", none) ∧
    (sessionAdjust (some (.vstr "AmbV")) (some "AmbI")
      (some { vault := some "SV" })).2.1 = some "AmbI" ∧
    (sessionAdjust (some (.vstr "AmbV")) (some "AmbI")
      (some { item := some "SI" })).2.1 = some "AmbI" := by
  refine ⟨?_, ?_, ?_⟩
  · exact session_override_semantics.1 _ _ _ "SV" "SI" rfl rfl (by decide) (by decide)
  · exact (session_override_semantics.2.1 _ _ _ "SV" rfl rfl).1
  · exact (session_override_semantics.2.2 _ _ _ "SI" rfl rfl).2.1 (by decide)

/-- C6 counterexample: with a session target URL present, the specifier
`"URL"` (upper case, which lowercases to the URL alias `"url"`) against an
item whose fields list is empty or missing returns `undefined`, not the
target URL: the empty-fields guard tests `SPECIAL_URL_FIELDS` against the
*unlowered* specifier and fires before the session-URL shortcut. -/
theorem url_shortcut_empty_fields_cex :
    jsToLower "URL" = "url" ∧
    findFieldValue { id := "it1", vault := { id := "v1" }, fields := some [] }
      { vaultNames := ["v1"], itemName := "it1", fieldSpecifier := "URL",
        originalPath := "p", target_url := some "https://t.example" } = none ∧
    findFieldValue { id := "it1", vault := { id := "v1" } }
      { vaultNames := ["v1"], itemName := "it1", fieldSpecifier := "URL",
        originalPath := "p", target_url := some "https://t.example" } = none := by
  decide

/-- C6 amended: when a (truthy) target URL is present and the specifier
lowercases to `url` or `website`, `findFieldValue` returns the target URL
immediately — before any match against the item's own fields or urls — for
every item whose fields list is non-empty (any casing of the specifier);
when the fields list is empty or missing the shortcut still applies
provided the specifier is literally `url` or `website` (the guard's
case-sensitive membership test). -/
theorem url_shortcut_priority :
    (∀ (item : OpJsItem) (rid : CyOpResolvedSecretIdentifier) (u : String),
      rid.target_url = some u → u ≠ "" →
      SPECIAL_URL_FIELDS.contains (jsToLower rid.fieldSpecifier) = true →
      item.fields ≠ none → item.fields ≠ some [] →
      findFieldValue item rid = some u) ∧
    (∀ (item : OpJsItem) (rid : CyOpResolvedSecretIdentifier) (u : String),
      rid.target_url = some u → u ≠ "" →
      SPECIAL_URL_FIELDS.contains rid.fieldSpecifier = true →
      findFieldValue item rid = some u) := by
  constructor
  · intro item rid u hu hut hl hf1 hf2
    have hfields : ¬(item.fields = none ∨ item.fields = some []) := by
      rintro (hc | hc)
      · exact hf1 hc
      · exact hf2 hc
    have hu' : jsTruthyO (some u) = true := by simp [jsTruthyO, hut]
    have hl' : jsToLower rid.fieldSpecifier ∈ SPECIAL_URL_FIELDS := by
      simpa using hl
    simp [findFieldValue, hfields, hu', hl', hu]
  · intro item rid u hu hut hs
    have hu' : jsTruthyO (some u) = true := by simp [jsTruthyO, hut]
    have e1 : jsToLower "url" = "url" := by decide
    have e2 : jsToLower "website" = "website" := by decide
    have hcases : rid.fieldSpecifier = "url" ∨ rid.fieldSpecifier = "website" := by
      have h' : rid.fieldSpecifier ∈ SPECIAL_URL_FIELDS := by simpa using hs
      simpa [SPECIAL_URL_FIELDS] using h'
    rcases hcases with hc | hc
    · simp [findFieldValue, hc, hu', hu, e1, SPECIAL_URL_FIELDS]
    · simp [findFieldValue, hc, hu', hu, e2, SPECIAL_URL_FIELDS]

/-- C6 amended witness: the shortcut applied with the specifier `WEBSITE`
against an item whose own fields and urls carry different values, and with
the lowercase specifier `url` against an item without fields. -/
theorem url_shortcut_priority_witness :
    findFieldValue
      { id := "it1", vault := { id := "v1" },
        fields := some [{ label := some "website", value := some "https://field.example" }],
        urls := some [{ primary := some true, href := some "https://own.example" }] }
      { vaultNames := ["v1"], itemName := "it1", fieldSpecifier := "WEBSITE",
        originalPath := "p", target_url := some "https://sess.example" } =
      some "https://sess.example" ∧
    findFieldValue { id := "it2", vault := { id := "v1" } }
      { vaultNames := ["v1"], itemName := "it2", fieldSpecifier := "url",
        originalPath := "p", target_url := some "https://sess.example" } =
      some "https://sess.example" := by
  constructor
  · exact url_shortcut_priority.1 _ _ _ rfl (by decide) (by decide) (by decide) (by decide)
  · exact url_shortcut_priority.2 _ _ _ rfl (by decide) (by decide)

/-- C2: with candidate vaults `[A, B, C]` (`A ≠ C`), no cache hit, a fetch
error for `A` and a well-formed item for `B`, the backend is queried for
`A` then `B` in that order and never for `C`; the `A` failure is cached and
the search continues; the first success ends the vault search, and the
field matcher's verdict on the `B` item alone decides the outcome. -/
theorem vault_order_search (failOnError : Bool) (fetch : Fetch)
    (cache : List CachedEntry) (rid : CyOpResolvedSecretIdentifier)
    (A B C : String) (e : JsError) (itB : OpJsItem)
    (hv : rid.vaultNames = [A, B, C])
    (hmiss : cache.find? (entryMatches rid) = none)
    (hA : fetch rid.itemName A = .err e)
    (hB : fetch rid.itemName B = .item itB)
    (hfB : itB.fields ≠ none)
    (hAC : A ≠ C) :
    (getAndFindSecretValue failOnError fetch cache rid).fetched =
      [(rid.itemName, A), (rid.itemName, B)] ∧
    CachedEntry.err e.message A rid.itemName rid.originalPath ∈
      (getAndFindSecretValue failOnError fetch cache rid).cache ∧
    CachedEntry.item itB ∈ (getAndFindSecretValue failOnError fetch cache rid).cache ∧
    (∀ v, findFieldValue itB rid = some v →
      (getAndFindSecretValue failOnError fetch cache rid).result = .ok (some v)) := by
  have hlast : ([A, B, C] : List String).getLast? = some C := rfl
  cases hfv : findFieldValue itB rid with
  | none =>
    refine ⟨?_, ?_, ?_, ?_⟩ <;>
      simp [getAndFindSecretValue, vaultLoop, hmiss, hv, hA, hB, hfB, hlast, hAC, hfv]
  | some v =>
    refine ⟨?_, ?_, ?_, ?_⟩ <;>
      simp [getAndFindSecretValue, vaultLoop, hmiss, hv, hA, hB, hfB, hlast, hAC, hfv]

/-- C2 witness: the theorem applied to a concrete backend holding the item
only in vault `B`. -/
theorem vault_order_search_witness :
    (getAndFindSecretValue true
      (fun _ v => if v = "B" then
        .item { id := "ib", title := some "i", vault := { id := "B" },
                fields := some [{ label := some "f", value := some "secret" }] }
        else .err { message := "not found" })
      []
      { vaultNames := ["A", "B", "C"], itemName := "i", fieldSpecifier := "f",
        originalPath := "p" }).fetched = [("i", "A"), ("i", "B")] ∧
    (getAndFindSecretValue true
      (fun _ v => if v = "B" then
        .item { id := "ib", title := some "i", vault := { id := "B" },
                fields := some [{ label := some "f", value := some "secret" }] }
        else .err { message := "not found" })
      []
      { vaultNames := ["A", "B", "C"], itemName := "i", fieldSpecifier := "f",
        originalPath := "p" }).result = .ok (some "secret") := by
  have h := vault_order_search true
    (fun _ v => if v = "B" then
      .item { id := "ib", title := some "i", vault := { id := "B" },
              fields := some [{ label := some "f", value := some "secret" }] }
      else .err { message := "not found" })
    []
    { vaultNames := ["A", "B", "C"], itemName := "i", fieldSpecifier := "f",
      originalPath := "p" }
    "A" "B" "C" { message := "not found" }
    { id := "ib", title := some "i", vault := { id := "B" },
      fields := some [{ label := some "f", value := some "secret" }] }
    rfl rfl (by decide) (by decide) (by decide) (by decide)
  exact ⟨h.1, h.2.2.2 "secret" (by decide)⟩

theorem expandRepl_id (matched before after : List Char) :
    ∀ l, noActiveDollar l = true → expandRepl matched before after l = l := by
  intro l
  induction l with
  | nil => intro _; rfl
  | cons c rest ih =>
    intro hna
    by_cases hc : c = '$'
    · subst hc
      cases rest with
      | nil => rfl
      | cons c2 rest2 =>
        have hna2 : (c2 = '$' || c2 = '&' || c2 = Char.ofNat 96 ||
            c2 = Char.ofNat 39) = false ∧ noActiveDollar (c2 :: rest2) = true := by
          by_cases hd : (c2 = '$' || c2 = '&' || c2 = Char.ofNat 96 ||
              c2 = Char.ofNat 39) = true
          · rw [noActiveDollar.eq_def] at hna
            simp only [if_pos rfl, hd, if_true] at hna
            simp at hna
          · refine ⟨by simpa using hd, ?_⟩
            rw [noActiveDollar.eq_def] at hna
            simpa [hd] using hna
        obtain ⟨hd, hrest⟩ := hna2
        have hd1 : ¬ c2 = '$' := by
          intro hx; rw [hx] at hd; simp at hd
        have hd2 : ¬ c2 = '&' := by
          intro hx; rw [hx] at hd; simp at hd
        have hd3 : ¬ c2 = Char.ofNat 96 := by
          intro hx; rw [hx] at hd; simp at hd
        have hd4 : ¬ c2 = Char.ofNat 39 := by
          intro hx; rw [hx] at hd; simp at hd
        rw [expandRepl.eq_def]
        simp [hd1, hd2, hd3, hd4, ih hrest]
    · have hrest : noActiveDollar rest = true := by
        rw [noActiveDollar.eq_def] at hna
        simpa [hc] using hna
      rw [expandRepl.eq_def]
      simp [hc, ih hrest]

/-- C10: placeholder substitution passes the resolved value as the
`replace` replacement argument, so it splices literally exactly when the
value has no active `$` sequence; a value containing one (here a literal
`$&`) yields a substituted string different from the literal splice, and
this shows through `replacePlaceholders` end to end. -/
theorem replace_dollar_semantics :
    (∀ s pattern v, noActiveDollar v.data = true →
      jsReplaceOnce s pattern v = literalSplice s pattern v) ∧
    jsReplaceOnce "x \x7b\x7bP\x7d\x7d y" "\x7b\x7bP\x7d\x7d" "$&" ≠
      literalSplice "x \x7b\x7bP\x7d\x7d y" "\x7b\x7bP\x7d\x7d" "$&" ∧
    (replacePlaceholders true
      (fun _ _ =>
        .item { id := "i1", vault := { id := "v" },
                fields := some [{ label := some "f", value := some "a$&b" }] })
      [] {} {} "v: \x7b\x7bop://v/i1/f\x7d\x7d").resultString =
      "v: a\x7b\x7bop://v/i1/f\x7d\x7db" := by
  refine ⟨?_, by decide, by decide⟩
  intro s pattern v h
  unfold jsReplaceOnce literalSplice
  cases hf : findSubIdx pattern.data s.data with
  | none => rfl
  | some i =>
    dsimp only
    rw [expandRepl_id _ _ _ _ h]

/-- C10 witness: the literal-splice clause applied at a dollar-free value. -/
theorem replace_dollar_semantics_witness :
    jsReplaceOnce "a b" "b" "z" = literalSplice "a b" "b" "z" :=
  replace_dollar_semantics.1 "a b" "b" "z" (by decide)

theorem jsMapGet_cons (k : String) (v : OpField) (m : List (String × OpField))
    (key : String) :
    jsMapGet ((k, v) :: m) key = if k = key then some v else jsMapGet m key := by
  by_cases h : k = key <;> simp [jsMapGet, List.find?_cons, h]

theorem jsMapGet_ite (c : Prop) [Decidable c] (m : List (String × OpField))
    (k : String) (v : OpField) (key : String) :
    jsMapGet (if c then jsMapSet m k v else m) key =
      if c ∧ k = key then some v else jsMapGet m key := by
  by_cases h : c
  · by_cases hk : k = key <;> simp [h, hk, jsMapSet, jsMapGet_cons]
  · simp [h]

theorem ite_ite_or {α : Type} (A B : Prop) [Decidable A] [Decidable B]
    (x y : α) :
    (if A then x else if B then x else y) = if A ∨ B then x else y := by
  by_cases hA : A <;> by_cases hB : B <;> simp [hA, hB]

theorem byLabel_step (acc : FieldMaps) (f : OpField) (key : String) :
    jsMapGet (fieldMapsStep acc f).byLabel key =
      if labelPred key f = true then some f else jsMapGet acc.byLabel key := by
  cases hl : f.label with
  | none => simp [fieldMapsStep, labelPred, hl, jsTruthyO]
  | some s =>
    by_cases hs : jsToLower s = ""
    · simp [fieldMapsStep, labelPred, hl, hs, jsTruthyO]
    · by_cases hk : jsToLower s = key
      · have hs' : ¬ key = "" := by rw [← hk]; exact hs
        simp [fieldMapsStep, labelPred, hl, hs, hk, hs', jsTruthyO, jsMapSet, jsMapGet_cons]
      · simp [fieldMapsStep, labelPred, hl, hs, hk, jsTruthyO, jsMapSet, jsMapGet_cons]

theorem byId_step (acc : FieldMaps) (f : OpField) (key : String) :
    jsMapGet (fieldMapsStep acc f).byId key =
      if idPred key f = true then some f else jsMapGet acc.byId key := by
  cases hl : f.id with
  | none => simp [fieldMapsStep, idPred, hl, jsTruthyO]
  | some s =>
    by_cases hs : jsToLower s = ""
    · simp [fieldMapsStep, idPred, hl, hs, jsTruthyO]
    · by_cases hk : jsToLower s = key
      · have hs' : ¬ key = "" := by rw [← hk]; exact hs
        simp [fieldMapsStep, idPred, hl, hs, hk, hs', jsTruthyO, jsMapSet, jsMapGet_cons]
      · simp [fieldMapsStep, idPred, hl, hs, hk, jsTruthyO, jsMapSet, jsMapGet_cons]

theorem bySecLabel_step (acc : FieldMaps) (f : OpField) (key : String) :
    jsMapGet (fieldMapsStep acc f).bySecLabel key =
      if secLabelPred key f = true then some f else jsMapGet acc.bySecLabel key := by
  simp only [fieldMapsStep]
  rw [jsMapGet_ite, jsMapGet_ite, ite_ite_or]
  congr 1
  simp only [secLabelPred, Bool.or_eq_true, Bool.and_eq_true, decide_eq_true_eq,
    eq_iff_iff]
  tauto

theorem bySecId_step (acc : FieldMaps) (f : OpField) (key : String) :
    jsMapGet (fieldMapsStep acc f).bySecId key =
      if secIdPred key f = true then some f else jsMapGet acc.bySecId key := by
  simp only [fieldMapsStep]
  rw [jsMapGet_ite, jsMapGet_ite, ite_ite_or]
  congr 1
  simp only [secIdPred, Bool.or_eq_true, Bool.and_eq_true, decide_eq_true_eq,
    eq_iff_iff]
  tauto

theorem mapGet_fold (key : String) (proj : FieldMaps → List (String × OpField))
    (pred : OpField → Bool)
    (hstep : ∀ acc f, jsMapGet (proj (fieldMapsStep acc f)) key =
      if pred f = true then some f else jsMapGet (proj acc) key) :
    ∀ (fields : List OpField) (acc : FieldMaps),
      jsMapGet (proj (fields.foldl fieldMapsStep acc)) key =
        (fields.reverse.find? pred).or (jsMapGet (proj acc) key) := by
  intro fields
  induction fields with
  | nil =>
    intro acc
    simp
  | cons f fs ih =>
    intro acc
    rw [List.foldl_cons, ih, hstep]
    rw [List.reverse_cons, List.find?_append]
    cases hl : fs.reverse.find? pred with
    | some x => simp
    | none =>
      simp only [Option.none_or]
      by_cases hp : pred f = true
      · simp [List.find?, hp]
      · have hp' : pred f = false := by
          cases hq : pred f with
          | false => rfl
          | true => exact absurd hq hp
        simp [List.find?, hp']

theorem byLabel_get (fields : List OpField) (key : String) :
    jsMapGet (buildFieldMaps fields).byLabel key = labelFind fields key := by
  have h := mapGet_fold key (fun m => m.byLabel) (labelPred key)
    (fun acc f => byLabel_step acc f key) fields {}
  simpa [buildFieldMaps, labelFind, jsMapGet] using h

theorem byId_get (fields : List OpField) (key : String) :
    jsMapGet (buildFieldMaps fields).byId key = idFind fields key := by
  have h := mapGet_fold key (fun m => m.byId) (idPred key)
    (fun acc f => byId_step acc f key) fields {}
  simpa [buildFieldMaps, idFind, jsMapGet] using h

theorem bySecLabel_get (fields : List OpField) (key : String) :
    jsMapGet (buildFieldMaps fields).bySecLabel key = secLabelFind fields key := by
  have h := mapGet_fold key (fun m => m.bySecLabel) (secLabelPred key)
    (fun acc f => bySecLabel_step acc f key) fields {}
  simpa [buildFieldMaps, secLabelFind, jsMapGet] using h

theorem bySecId_get (fields : List OpField) (key : String) :
    jsMapGet (buildFieldMaps fields).bySecId key = secIdFind fields key := by
  have h := mapGet_fold key (fun m => m.bySecId) (secIdPred key)
    (fun acc f => bySecId_step acc f key) fields {}
  simpa [buildFieldMaps, secIdFind, jsMapGet] using h

/-- C5: outside the session-URL shortcut, the direct match checks the
label-keyed lookup before the id-keyed lookup (a label hit wins even when a
distinct field's id also matches), and the whole direct match runs before
any section.field interpretation; only when both direct lookups miss is the
specifier split on its last separator and matched against the section
label-or-id and field label (then field id) maps. -/
theorem field_match_priority :
    (∀ (item : OpJsItem) (rid : CyOpResolvedSecretIdentifier) (mf : OpField),
      ¬(jsTruthyO rid.target_url = true ∧
        jsToLower rid.fieldSpecifier ∈ SPECIAL_URL_FIELDS) →
      labelFind (item.fields.getD []) (jsToLower rid.fieldSpecifier) = some mf →
      findFieldValue item rid = mf.value) ∧
    (∀ (item : OpJsItem) (rid : CyOpResolvedSecretIdentifier) (mf : OpField),
      ¬(jsTruthyO rid.target_url = true ∧
        jsToLower rid.fieldSpecifier ∈ SPECIAL_URL_FIELDS) →
      labelFind (item.fields.getD []) (jsToLower rid.fieldSpecifier) = none →
      idFind (item.fields.getD []) (jsToLower rid.fieldSpecifier) = some mf →
      findFieldValue item rid = mf.value) ∧
    (∀ (item : OpJsItem) (rid : CyOpResolvedSecretIdentifier) (mf : OpField),
      ¬(jsTruthyO rid.target_url = true ∧
        jsToLower rid.fieldSpecifier ∈ SPECIAL_URL_FIELDS) →
      labelFind (item.fields.getD []) (jsToLower rid.fieldSpecifier) = none →
      idFind (item.fields.getD []) (jsToLower rid.fieldSpecifier) = none →
      1 < (jsSplitChar '.' rid.fieldSpecifier).length →
      jsToLower ((jsSplitChar '.' rid.fieldSpecifier).getLast?.getD "") ≠ "" →
      jsToLower (joinDot (jsSplitChar '.' rid.fieldSpecifier).dropLast) ≠ "" →
      secLabelFind (item.fields.getD [])
        (jsToLower (joinDot (jsSplitChar '.' rid.fieldSpecifier).dropLast) ++ "." ++
          jsToLower ((jsSplitChar '.' rid.fieldSpecifier).getLast?.getD "")) = some mf →
      findFieldValue item rid = mf.value) ∧
    (∀ (item : OpJsItem) (rid : CyOpResolvedSecretIdentifier) (mf : OpField),
      ¬(jsTruthyO rid.target_url = true ∧
        jsToLower rid.fieldSpecifier ∈ SPECIAL_URL_FIELDS) →
      labelFind (item.fields.getD []) (jsToLower rid.fieldSpecifier) = none →
      idFind (item.fields.getD []) (jsToLower rid.fieldSpecifier) = none →
      1 < (jsSplitChar '.' rid.fieldSpecifier).length →
      jsToLower ((jsSplitChar '.' rid.fieldSpecifier).getLast?.getD "") ≠ "" →
      jsToLower (joinDot (jsSplitChar '.' rid.fieldSpecifier).dropLast) ≠ "" →
      secLabelFind (item.fields.getD [])
        (jsToLower (joinDot (jsSplitChar '.' rid.fieldSpecifier).dropLast) ++ "." ++
          jsToLower ((jsSplitChar '.' rid.fieldSpecifier).getLast?.getD "")) = none →
      secIdFind (item.fields.getD [])
        (jsToLower (joinDot (jsSplitChar '.' rid.fieldSpecifier).dropLast) ++ "." ++
          jsToLower ((jsSplitChar '.' rid.fieldSpecifier).getLast?.getD "")) = some mf →
      findFieldValue item rid = mf.value) := by
  have hnonempty : ∀ (item : OpJsItem) (p : OpField → Bool) (mf : OpField),
      (item.fields.getD []).reverse.find? p = some mf →
      ¬(item.fields = none ∨ item.fields = some []) := by
    intro item p mf hf hdisj
    have : item.fields.getD [] = [] := by
      rcases hdisj with hc | hc <;> rw [hc] <;> rfl
    rw [this] at hf
    simp at hf
  refine ⟨?_, ?_, ?_, ?_⟩
  · intro item rid mf hsc hlf
    have hfields := hnonempty item _ _ hlf
    simp [findFieldValue, hfields, hsc, byLabel_get, byId_get, hlf]
  · intro item rid mf hsc hlf hif
    have hfields := hnonempty item _ _ hif
    simp [findFieldValue, hfields, hsc, byLabel_get, byId_get, hlf, hif]
  · intro item rid mf hsc hlf hif hlen hfn hsn hsec
    have hfields := hnonempty item _ _ hsec
    have hfn' : jsTruthyS
        (jsToLower ((jsSplitChar '.' rid.fieldSpecifier).getLast?.getD "")) = true := by
      simp [jsTruthyS, hfn]
    have hsn' : jsTruthyS
        (jsToLower (joinDot (jsSplitChar '.' rid.fieldSpecifier).dropLast)) = true := by
      simp [jsTruthyS, hsn]
    simp [findFieldValue, hfields, hsc, byLabel_get, byId_get, bySecLabel_get,
      bySecId_get, hlf, hif, hlen, hfn', hsn', hsec]
  · intro item rid mf hsc hlf hif hlen hfn hsn hsecl hseci
    have hfields := hnonempty item _ _ hseci
    have hfn' : jsTruthyS
        (jsToLower ((jsSplitChar '.' rid.fieldSpecifier).getLast?.getD "")) = true := by
      simp [jsTruthyS, hfn]
    have hsn' : jsTruthyS
        (jsToLower (joinDot (jsSplitChar '.' rid.fieldSpecifier).dropLast)) = true := by
      simp [jsTruthyS, hsn]
    simp [findFieldValue, hfields, hsc, byLabel_get, byId_get, bySecLabel_get,
      bySecId_get, hlf, hif, hlen, hfn', hsn', hsecl, hseci]

/-- C5 witness: the label/id tie-break and the direct-before-section order
at concrete items (one field's label collides with a distinct field's id;
a field literally labeled `a.b` beats the sectioned interpretation; the
sectioned interpretation applies once no direct match exists). -/
theorem field_match_priority_witness :
    findFieldValue
      { id := "it1", vault := { id := "v1" },
        fields := some [{ id := some "y", label := some "x", value := some "v1" },
                        { id := some "x", label := some "z", value := some "v2" }] }
      { vaultNames := ["v1"], itemName := "it1", fieldSpecifier := "x",
        originalPath := "p" } = some "v1" ∧
    findFieldValue
      { id := "it1", vault := { id := "v1" },
        fields := some [{ label := some "a.b", value := some "direct" },
                        { label := some "b", value := some "insec",
                          «section» := some { label := some "a" } }] }
      { vaultNames := ["v1"], itemName := "it1", fieldSpecifier := "a.b",
        originalPath := "p" } = some "direct" ∧
    findFieldValue
      { id := "it1", vault := { id := "v1" },
        fields := some [{ label := some "b", value := some "insec",
                          «section» := some { label := some "a" } }] }
      { vaultNames := ["v1"], itemName := "it1", fieldSpecifier := "a.b",
        originalPath := "p" } = some "insec" := by
  refine ⟨?_, ?_, ?_⟩
  · exact field_match_priority.1 _ _
      { id := some "y", label := some "x", value := some "v1" }
      (by decide) (by decide)
  · exact field_match_priority.1 _ _
      { label := some "a.b", value := some "direct" }
      (by decide) (by decide)
  · exact field_match_priority.2.2.1 _ _
      { label := some "b", value := some "insec",
        «section» := some { label := some "a" } }
      (by decide) (by decide) (by decide) (by decide) (by decide) (by decide)
      (by decide)

theorem heapGet_set_ne (h : Heap) (a : Nat) (env : List (String × EnvVal))
    (b : Nat) (hb : b ≠ a) : heapGet (heapSet h a env) b = heapGet h b := by
  simp [heapGet, heapSet, List.getD, List.getElem?_set_ne (Ne.symm hb)]

theorem resolveEntries_frame (failOnError : Bool) (fetch : Fetch) (proc : ProcEnv) :
    ∀ (keys : List String) (a : Nat) (h : Heap) (st : ResolverState) (b : Nat),
      b ≠ a →
      heapGet (resolveEntries failOnError fetch proc keys a h st).2.1 b =
        heapGet h b := by
  intro keys
  induction keys with
  | nil =>
    intro a h st b hb
    rfl
  | cons k ks ih =>
    intro a h st b hb
    rw [resolveEntries]
    dsimp only
    repeat' split
    all_goals
      first
      | rfl
      | exact ih _ _ _ _ hb
      | exact (ih _ _ _ _ hb).trans (heapGet_set_ne _ _ _ _ hb)

/-- C9: `resolve` copies the configuration only one level deep — every
successfully returned configuration carries the very same env reference as
the one the resolver was constructed with, writes go only through that
shared reference (every other heap address is untouched), and the caller's
env object observes the substitutions in place, including the partial
updates already applied when a fail-fast error aborts the pass. -/
theorem env_shared_mutation :
    (∀ (failOnError : Bool) (validate : Except String Unit) (fetch : Fetch)
      (proc : ProcEnv) (config : ConfigObj) (h : Heap) (st : ResolverState)
      (cfg' : ConfigObj),
      (OpResolver.resolve failOnError validate fetch proc config h st).result =
        .ok cfg' → cfg'.envRef = config.envRef) ∧
    (∀ (failOnError : Bool) (validate : Except String Unit) (fetch : Fetch)
      (proc : ProcEnv) (config : ConfigObj) (h : Heap) (st : ResolverState)
      (b : Nat), (∀ a, config.envRef = some a → b ≠ a) →
      heapGet (OpResolver.resolve failOnError validate fetch proc config h st).heap b =
        heapGet h b) ∧
    ((OpResolver.resolve true (.ok ())
      (fun i _ =>
        if i = "i" then
          FetchRes.item { id := "i", title := some "i", vault := { id := "v" },
                          fields := some [{ label := some "f", value := some "val" }] }
        else .err { message := "gone" })
      {} { envRef := some 0 }
      [[("FIRST", .vstr "op://v/i/f"), ("SECOND", .vstr "op://v/miss/f")]] {}).result =
        .error ("[cypress-1password] Failed to load secret for path \"op://v/miss/f\"" ++
          " (Item: \"miss\", Vault: \"v\"): gone") ∧
     (OpResolver.resolve true (.ok ())
      (fun i _ =>
        if i = "i" then
          FetchRes.item { id := "i", title := some "i", vault := { id := "v" },
                          fields := some [{ label := some "f", value := some "val" }] }
        else .err { message := "gone" })
      {} { envRef := some 0 }
      [[("FIRST", .vstr "op://v/i/f"), ("SECOND", .vstr "op://v/miss/f")]] {}).heap =
        [[("FIRST", .vstr "val"), ("SECOND", .vstr "op://v/miss/f")]]) := by
  refine ⟨?_, ?_, by decide⟩
  · intro failOnError validate fetch proc config h st cfg' hres
    unfold OpResolver.resolve at hres
    cases validate with
    | error e =>
      simp only at hres
      exact congrArg ConfigObj.envRef (Except.ok.inj hres).symm
    | ok u =>
      cases henv : config.envRef with
      | none =>
        simp only [henv] at hres
        exact congrArg ConfigObj.envRef (Except.ok.inj hres).symm
      | some a =>
        simp only [henv] at hres
        split at hres
        · exact Except.noConfusion hres
        · exact congrArg ConfigObj.envRef (Except.ok.inj hres).symm
  · intro failOnError validate fetch proc config h st b hb
    unfold OpResolver.resolve
    cases validate with
    | error e => rfl
    | ok u =>
      cases henv : config.envRef with
      | none => rfl
      | some a =>
        simp only [henv]
        split
        · exact resolveEntries_frame failOnError fetch proc _ a h st b (hb a henv)
        · exact resolveEntries_frame failOnError fetch proc _ a h st b (hb a henv)

/-- C9 witness: the shared-reference clause applied at the concrete run of
the third clause, and the frame clause at an unrelated heap address. -/
theorem env_shared_mutation_witness :
    ({ envRef := some 0 } : ConfigObj).envRef = some 0 ∧
    heapGet (OpResolver.resolve true (.ok ())
      (fun i _ =>
        if i = "i" then
          FetchRes.item { id := "i", title := some "i", vault := { id := "v" },
                          fields := some [{ label := some "f", value := some "val" }] }
        else .err { message := "gone" })
      {} { envRef := some 0 }
      [[("FIRST", .vstr "op://v/i/f"), ("SECOND", .vstr "op://v/miss/f")]] {}).heap 3 =
      heapGet [[("FIRST", .vstr "op://v/i/f"), ("SECOND", .vstr "op://v/miss/f")]] 3 := by
  constructor
  · exact env_shared_mutation.1 true (.ok ())
      (fun _ _ => FetchRes.err { message := "x" }) {} { envRef := some 0 } [[]] {}
      { envRef := some 0 } (by decide)
  · exact env_shared_mutation.2.1 true (.ok ()) _ {} { envRef := some 0 } _ {} 3
      (fun a ha => by simp at ha; omega)


/-! ## C1: the at-most-one-fetch invariant -/

theorem entryMatches_iff (rid : CyOpResolvedSecretIdentifier) (e : CachedEntry) :
    entryMatches rid e = true ↔
      ∃ V ∈ rid.vaultNames, pairCoversB e V rid.itemName = true := by
  cases e with
  | err msg vn inm origp =>
    simp only [entryMatches, pairCoversB, Bool.and_eq_true, decide_eq_true_eq]
    constructor
    · rintro ⟨hc, hi⟩
      exact ⟨vn, by simpa using hc, rfl, hi⟩
    · rintro ⟨V, hV, hvn, hi⟩
      subst hvn
      exact ⟨by simpa using hV, hi⟩
  | item it =>
    simp only [entryMatches, pairCoversB, Bool.and_eq_true, List.any_eq_true]
    constructor
    · rintro ⟨⟨V, hV, hvg⟩, him⟩
      exact ⟨V, hV, hvg, him⟩
    · rintro ⟨V, hV, hvg, him⟩
      exact ⟨⟨V, hV, hvg⟩, him⟩

theorem vaultLoop_fetched_shape (failOnError : Bool) (fetch : Fetch)
    (rid : CyOpResolvedSecretIdentifier) :
    ∀ vs, ∃ n, (vaultLoop failOnError fetch rid vs).2.2 =
      (vs.take n).map (fun v => (rid.itemName, v)) := by
  intro vs
  induction vs with
  | nil => exact ⟨0, rfl⟩
  | cons v rest ih =>
    rw [vaultLoop]
    cases hf : fetch rid.itemName v with
    | item it =>
      by_cases hfn : it.fields = none
      · obtain ⟨n, hn⟩ := ih
        exact ⟨n + 1, by simp [hfn, hn]⟩
      · cases hffv : findFieldValue it rid with
        | some w => exact ⟨1, by simp [hfn, hffv]⟩
        | none => exact ⟨1, by simp [hfn, hffv]⟩
    | nonItem =>
      obtain ⟨n, hn⟩ := ih
      exact ⟨n + 1, by simp [hn]⟩
    | err e =>
      by_cases hlast : some v = rid.vaultNames.getLast?
      · by_cases hpre : e.message ≠ "" ∧ strBegins e.message errorTag = true
        · exact ⟨1, by simp [hlast, hpre]⟩
        · exact ⟨1, by simp [hlast, hpre]⟩
      · obtain ⟨n, hn⟩ := ih
        exact ⟨n + 1, by simp [hlast, hn]⟩

theorem vaultLoop_covers (failOnError : Bool) (fetch : Fetch)
    (rid : CyOpResolvedSecretIdentifier) (hcoh : coherentFetch fetch) :
    ∀ vs, ∀ p ∈ (vaultLoop failOnError fetch rid vs).2.2,
      p.1 = rid.itemName ∧ p.2 ∈ vs ∧
      ∃ e ∈ (vaultLoop failOnError fetch rid vs).2.1, pairCoversB e p.2 p.1 = true := by
  intro vs
  induction vs with
  | nil =>
    intro p hp
    simp [vaultLoop] at hp
  | cons v rest ih =>
    intro p hp
    rw [vaultLoop] at hp ⊢
    cases hf : fetch rid.itemName v with
    | item it =>
      rw [hf] at hp
      dsimp only at hp ⊢
      by_cases hfn : it.fields = none
      · simp only [hfn, if_pos rfl, reduceIte] at hp ⊢
        rcases (List.mem_cons.mp hp) with hpv | hprest
        · subst hpv
          refine ⟨rfl, List.mem_cons_self _ _, ?_⟩
          refine ⟨.err _ v rid.itemName rid.originalPath, List.mem_cons_self _ _, ?_⟩
          simp [pairCoversB]
        · obtain ⟨h1, h2, e', he', hc'⟩ := ih p hprest
          exact ⟨h1, List.mem_cons_of_mem _ h2, e', List.mem_cons_of_mem _ he', hc'⟩
      · simp only [hfn, reduceIte] at hp ⊢
        cases hffv : findFieldValue it rid with
        | some w =>
          rw [hffv] at hp
          simp only [List.mem_singleton] at hp
          subst hp
          refine ⟨rfl, List.mem_cons_self _ _, ?_⟩
          exact ⟨.item it, List.mem_singleton_self _, hcoh _ _ _ hf⟩
        | none =>
          rw [hffv] at hp
          simp only [List.mem_singleton] at hp
          subst hp
          refine ⟨rfl, List.mem_cons_self _ _, ?_⟩
          exact ⟨.item it, List.mem_singleton_self _, hcoh _ _ _ hf⟩
    | nonItem =>
      rw [hf] at hp
      dsimp only at hp ⊢
      rcases (List.mem_cons.mp hp) with hpv | hprest
      · subst hpv
        refine ⟨rfl, List.mem_cons_self _ _, ?_⟩
        refine ⟨.err _ v rid.itemName rid.originalPath, List.mem_cons_self _ _, ?_⟩
        simp [pairCoversB]
      · obtain ⟨h1, h2, e', he', hc'⟩ := ih p hprest
        exact ⟨h1, List.mem_cons_of_mem _ h2, e', List.mem_cons_of_mem _ he', hc'⟩
    | err e =>
      rw [hf] at hp
      dsimp only at hp ⊢
      by_cases hlast : some v = rid.vaultNames.getLast?
      · rw [if_pos hlast] at hp ⊢
        by_cases hpre : e.message ≠ "" ∧ strBegins e.message errorTag = true
        · rw [if_pos hpre] at hp ⊢
          simp only [List.mem_singleton] at hp
          subst hp
          refine ⟨rfl, List.mem_cons_self _ _, ?_⟩
          refine ⟨.err e.message v rid.itemName rid.originalPath,
            List.mem_singleton_self _, ?_⟩
          simp [pairCoversB]
        · rw [if_neg hpre] at hp ⊢
          simp only [List.mem_singleton] at hp
          subst hp
          refine ⟨rfl, List.mem_cons_self _ _, ?_⟩
          refine ⟨.err e.message v rid.itemName rid.originalPath,
            List.mem_singleton_self _, ?_⟩
          simp [pairCoversB]
      · rw [if_neg hlast] at hp ⊢
        rcases (List.mem_cons.mp hp) with hpv | hprest
        · subst hpv
          refine ⟨rfl, List.mem_cons_self _ _, ?_⟩
          refine ⟨.err e.message v rid.itemName rid.originalPath,
            List.mem_cons_self _ _, ?_⟩
          simp [pairCoversB]
        · obtain ⟨h1, h2, e', he', hc'⟩ := ih p hprest
          exact ⟨h1, List.mem_cons_of_mem _ h2, e', List.mem_cons_of_mem _ he', hc'⟩

theorem vaultLoop_fetched_nodup (failOnError : Bool) (fetch : Fetch)
    (rid : CyOpResolvedSecretIdentifier) (vs : List String) (hnd : vs.Nodup) :
    (vaultLoop failOnError fetch rid vs).2.2.Nodup := by
  obtain ⟨n, hn⟩ := vaultLoop_fetched_shape failOnError fetch rid vs
  rw [hn]
  refine List.Nodup.map ?_ ((List.take_sublist n vs).nodup hnd)
  intro a b hab
  simpa using hab

theorem getAndFind_hit (failOnError : Bool) (fetch : Fetch)
    (cache : List CachedEntry) (rid : CyOpResolvedSecretIdentifier)
    (h : (cache.find? (entryMatches rid)).isSome = true) :
    (getAndFindSecretValue failOnError fetch cache rid).fetched = [] ∧
    (getAndFindSecretValue failOnError fetch cache rid).cache = cache := by
  unfold getAndFindSecretValue
  cases hf : cache.find? (entryMatches rid) with
  | none =>
    rw [hf] at h
    simp at h
  | some e =>
    cases e with
    | err msg vn inm origp => simp [hf]
    | item it =>
      cases hffv : findFieldValue it rid with
      | some w => simp [hf, hffv]
      | none => simp [hf, hffv]

theorem getAndFind_miss (failOnError : Bool) (fetch : Fetch)
    (cache : List CachedEntry) (rid : CyOpResolvedSecretIdentifier)
    (h : cache.find? (entryMatches rid) = none) :
    getAndFindSecretValue failOnError fetch cache rid =
      { result := (vaultLoop failOnError fetch rid rid.vaultNames).1,
        cache := cache ++ (vaultLoop failOnError fetch rid rid.vaultNames).2.1,
        fetched := (vaultLoop failOnError fetch rid rid.vaultNames).2.2 } := by
  unfold getAndFindSecretValue
  simp [h]

theorem getAndFind_mono (failOnError : Bool) (fetch : Fetch)
    (cache : List CachedEntry) (rid : CyOpResolvedSecretIdentifier) :
    ∀ e ∈ cache, e ∈ (getAndFindSecretValue failOnError fetch cache rid).cache := by
  intro e he
  cases hf : (cache.find? (entryMatches rid)).isSome with
  | true => rw [(getAndFind_hit failOnError fetch cache rid hf).2]; exact he
  | false =>
    have hf' : cache.find? (entryMatches rid) = none := by
      cases hq : cache.find? (entryMatches rid) with
      | none => rfl
      | some x => rw [hq] at hf; simp at hf
    rw [getAndFind_miss failOnError fetch cache rid hf']
    exact List.mem_append_left _ he

theorem getAndFind_covers (failOnError : Bool) (fetch : Fetch)
    (cache : List CachedEntry) (rid : CyOpResolvedSecretIdentifier)
    (hcoh : coherentFetch fetch) :
    ∀ p ∈ (getAndFindSecretValue failOnError fetch cache rid).fetched,
      ∃ e ∈ (getAndFindSecretValue failOnError fetch cache rid).cache,
        pairCoversB e p.2 p.1 = true := by
  intro p hp
  cases hf : (cache.find? (entryMatches rid)).isSome with
  | true =>
    rw [(getAndFind_hit failOnError fetch cache rid hf).1] at hp
    simp at hp
  | false =>
    have hf' : cache.find? (entryMatches rid) = none := by
      cases hq : cache.find? (entryMatches rid) with
      | none => rfl
      | some x => rw [hq] at hf; simp at hf
    rw [getAndFind_miss failOnError fetch cache rid hf'] at hp ⊢
    obtain ⟨_, _, e, he, hc⟩ := vaultLoop_covers failOnError fetch rid hcoh _ p hp
    exact ⟨e, List.mem_append_right _ he, hc⟩

theorem getAndFind_fresh (failOnError : Bool) (fetch : Fetch)
    (cache : List CachedEntry) (rid : CyOpResolvedSecretIdentifier) :
    ∀ p ∈ (getAndFindSecretValue failOnError fetch cache rid).fetched,
      ¬ ∃ e ∈ cache, pairCoversB e p.2 p.1 = true := by
  intro p hp ⟨e, he, hc⟩
  cases hf : (cache.find? (entryMatches rid)).isSome with
  | true =>
    rw [(getAndFind_hit failOnError fetch cache rid hf).1] at hp
    simp at hp
  | false =>
    have hf' : cache.find? (entryMatches rid) = none := by
      cases hq : cache.find? (entryMatches rid) with
      | none => rfl
      | some x => rw [hq] at hf; simp at hf
    rw [getAndFind_miss failOnError fetch cache rid hf'] at hp
    obtain ⟨n, hn⟩ := vaultLoop_fetched_shape failOnError fetch rid rid.vaultNames
    rw [hn] at hp
    simp only [List.mem_map] at hp
    obtain ⟨v, hv, hpv⟩ := hp
    have hvmem : v ∈ rid.vaultNames := (List.take_sublist n _).mem hv
    have hem : entryMatches rid e = true := by
      rw [entryMatches_iff]
      refine ⟨v, hvmem, ?_⟩
      have h1 : p.2 = v := by rw [← hpv]
      have h2 : p.1 = rid.itemName := by rw [← hpv]
      rw [← h1, ← h2]
      exact hc
    have := List.find?_eq_none.mp hf' e he
    exact this hem

theorem getAndFind_fetched_nodup (failOnError : Bool) (fetch : Fetch)
    (cache : List CachedEntry) (rid : CyOpResolvedSecretIdentifier)
    (hnd : rid.vaultNames.Nodup) :
    (getAndFindSecretValue failOnError fetch cache rid).fetched.Nodup := by
  cases hf : (cache.find? (entryMatches rid)).isSome with
  | true =>
    rw [(getAndFind_hit failOnError fetch cache rid hf).1]
    exact List.nodup_nil
  | false =>
    have hf' : cache.find? (entryMatches rid) = none := by
      cases hq : cache.find? (entryMatches rid) with
      | none => rfl
      | some x => rw [hq] at hf; simp at hf
    rw [getAndFind_miss failOnError fetch cache rid hf']
    exact vaultLoop_fetched_nodup failOnError fetch rid rid.vaultNames hnd

theorem runRequests_inv (failOnError : Bool) (fetch : Fetch)
    (hcoh : coherentFetch fetch) :
    ∀ (rids : List CyOpResolvedSecretIdentifier),
      (∀ rid ∈ rids, rid.vaultNames.Nodup) →
      ∀ cache,
        (∀ p ∈ (runRequests failOnError fetch rids cache).2,
          ∃ e ∈ (runRequests failOnError fetch rids cache).1,
            pairCoversB e p.2 p.1 = true) ∧
        (∀ p ∈ (runRequests failOnError fetch rids cache).2,
          ¬ ∃ e ∈ cache, pairCoversB e p.2 p.1 = true) ∧
        (∀ e ∈ cache, e ∈ (runRequests failOnError fetch rids cache).1) ∧
        (runRequests failOnError fetch rids cache).2.Nodup := by
  intro rids
  induction rids with
  | nil =>
    intro _ cache
    refine ⟨?_, ?_, ?_, ?_⟩
    · intro p hp; simp [runRequests] at hp
    · intro p hp; simp [runRequests] at hp
    · intro e he; simpa [runRequests] using he
    · simp [runRequests]
  | cons rid rest ih =>
    intro hnd cache
    have hndr : rid.vaultNames.Nodup := hnd rid (List.mem_cons_self _ _)
    have hndrest : ∀ r ∈ rest, r.vaultNames.Nodup :=
      fun r hr => hnd r (List.mem_cons_of_mem _ hr)
    obtain ⟨cov', fresh', mono', nd'⟩ :=
      ih hndrest (getAndFindSecretValue failOnError fetch cache rid).cache
    rw [runRequests]
    refine ⟨?_, ?_, ?_, ?_⟩
    · intro p hp
      rcases List.mem_append.mp hp with hp1 | hp2
      · obtain ⟨e, he, hc⟩ := getAndFind_covers failOnError fetch cache rid hcoh p hp1
        exact ⟨e, mono' e he, hc⟩
      · exact cov' p hp2
    · intro p hp
      rcases List.mem_append.mp hp with hp1 | hp2
      · exact getAndFind_fresh failOnError fetch cache rid p hp1
      · intro ⟨e, he, hc⟩
        exact fresh' p hp2 ⟨e, getAndFind_mono failOnError fetch cache rid e he, hc⟩
    · intro e he
      exact mono' e (getAndFind_mono failOnError fetch cache rid e he)
    · rw [List.nodup_append]
      refine ⟨getAndFind_fetched_nodup failOnError fetch cache rid hndr, nd', ?_⟩
      intro p hp1 hp2
      obtain ⟨e, he, hc⟩ := getAndFind_covers failOnError fetch cache rid hcoh p hp1
      exact fresh' p hp2 ⟨e, he, hc⟩

/-- C1 counterexample: two resolution requests for the same
case-insensitive (vault, item) pair — differing only in the case of the
item name — against a failing backend trigger two backend fetches in one
pass: the cached failure is matched only by the exact item-name string, so
the second request is a cache miss and fetches again. -/
theorem cache_case_refetch_cex :
    (runRequests false (fun _ _ => .err { message := "boom" })
      [{ vaultNames := ["V"], itemName := "Item1", fieldSpecifier := "f",
         originalPath := "p1" },
       { vaultNames := ["V"], itemName := "item1", fieldSpecifier := "f",
         originalPath := "p2" }]
      []).2 = [("Item1", "V"), ("item1", "V")] ∧
    jsToLower "Item1" = jsToLower "item1" ∧
    (("Item1", "V") : String × String) ≠ ("item1", "V") := by
  decide

/-- C1 amended: over any sequence of resolution requests sharing one item
cache, the backend is fetched at most once per exact `(itemName,
vaultName)` string pair, provided each request's candidate-vault list is
duplicate-free and the backend is coherent (a fetched item identifies the
requested vault and item); and any request matching a cache entry — a
success matched by id or case-insensitive name/title, or a failure matched
by the exact vault and item strings — performs no fetch and leaves the
cache unchanged. -/
theorem fetch_at_most_once :
    (∀ (failOnError : Bool) (fetch : Fetch)
      (rids : List CyOpResolvedSecretIdentifier) (cache : List CachedEntry),
      coherentFetch fetch → (∀ rid ∈ rids, rid.vaultNames.Nodup) →
      (runRequests failOnError fetch rids cache).2.Nodup) ∧
    (∀ (failOnError : Bool) (fetch : Fetch) (cache : List CachedEntry)
      (rid : CyOpResolvedSecretIdentifier),
      (cache.find? (entryMatches rid)).isSome = true →
      (getAndFindSecretValue failOnError fetch cache rid).fetched = [] ∧
      (getAndFindSecretValue failOnError fetch cache rid).cache = cache) := by
  constructor
  · intro failOnError fetch rids cache hcoh hnd
    exact (runRequests_inv failOnError fetch hcoh rids hnd cache).2.2.2
  · intro failOnError fetch cache rid h
    exact getAndFind_hit failOnError fetch cache rid h

/-- C1 amended witness: the invariant applied to a concrete two-request
pass (same item reached by title and then by id through a cached success),
and the no-fetch clause applied at a cache hit. -/
theorem fetch_at_most_once_witness :
    (runRequests true
      (fun i v =>
        if i = "Item One" ∧ v = "V1" then
          .item { id := "iid", title := some "Item One",
                  vault := { id := "V1", name := some "Vault One" },
                  fields := some [{ label := some "f", value := some "s" }] }
        else .err { message := "nf" })
      [{ vaultNames := ["V1"], itemName := "Item One", fieldSpecifier := "f",
         originalPath := "p1" },
       { vaultNames := ["vault one"], itemName := "iid", fieldSpecifier := "f",
         originalPath := "p2" }]
      []).2.Nodup ∧
    (getAndFindSecretValue true (fun _ _ => .err { message := "nf" })
      [.err "boom" "V" "I" "p"]
      { vaultNames := ["V"], itemName := "I", fieldSpecifier := "f",
        originalPath := "p" }).fetched = [] := by
  constructor
  · exact fetch_at_most_once.1 true _ _ []
      (by
        intro I V it h
        by_cases hc : I = "Item One" ∧ V = "V1"
        · simp only [hc, and_self, reduceIte] at h
          obtain ⟨h1, h2⟩ := hc
          subst h1
          subst h2
          rw [← FetchRes.item.inj h]
          decide
        · simp only [hc, reduceIte] at h
          exact FetchRes.noConfusion h)
      (by
        intro rid hr
        simp only [List.mem_cons, List.mem_singleton, List.not_mem_nil, or_false] at hr
        rcases hr with h | h
        · subst h; decide
        · subst h; decide)
  · exact (fetch_at_most_once.2 true _ _ _ (by decide)).1

/-- C8: if the upfront backend validation fails, `resolve` returns the
configuration unchanged — same env reference, untouched heap, untouched
resolver state, no fetches — and does not throw, for every fail policy. -/
theorem validate_failure_aborts (failOnError : Bool) (fetch : Fetch)
    (proc : ProcEnv) (config : ConfigObj) (h : Heap) (st : ResolverState)
    (msg : String) :
    OpResolver.resolve failOnError (.error msg) fetch proc config h st =
      { result := .ok { envRef := config.envRef }, heap := h, state := st,
        fetched := [] } := rfl

end CyOp
